import Mathlib

/-!
# RISC-V perf-event support: event mapping and counter accumulation

A shallow embedding of `arch/riscv/kernel/perf_event.c` and
`arch/riscv/include/asm/perf_event.h`.

* The two build variants (`CONFIG_ARIANE_PMU` set or not) are the two values of `Build`.
* The global descriptor pointer `riscv_pmu` is an explicit argument `pmu`.
* `u64` values are naturals reduced modulo `2 ^ 64` where the C code computes them. The
  counter `riscv_active_events` is a 32-bit `atomic_t`: its increments and decrements wrap
  (`atomic_inc_return`, `atomic_dec_return`). The field `n_events` is an integer, kept between 0
  and `num_counters` by the calls that obey the lifecycle.
* A result of type `Option _` is `none` when the C code would perform an access outside an
  array, shift by an out-of-range amount, or when the retry loop of `riscv_pmu_read` runs out
  of fuel.
-/

namespace RiscvPmu

/-! ## Build variant and constants -/

/-- The two builds of the file: `ariane` is `CONFIG_ARIANE_PMU`, `base` is the `#else` side. -/
inductive Build where
  | base
  | ariane
  deriving DecidableEq, Repr

/-- Modelled from the spec: `errno-base.h` is not under src/; "no such capability" error. -/
def ENOENT : Int := 2

/-- Modelled from the spec: `errno-base.h` is not under src/; `HardwareUnavailable`. -/
def EBUSY : Int := 16

/-- Modelled from the spec: `errno-base.h` is not under src/; `InvalidArgument`. -/
def EINVAL : Int := 22

/-- Modelled from the spec: `errno-base.h` is not under src/; `NoSpace`. -/
def ENOSPC : Int := 28

/-- Modelled from the spec: `errno.h` is not under src/; `NotSupported`. -/
def EOPNOTSUPP : Int := 95

/-- Header constant `RISCV_BASE_COUNTERS`. -/
def RISCV_BASE_COUNTERS : Int := 2

/-- Header constant `RISCV_MAX_COUNTERS`: 2 under `CONFIG_RISCV_BASE_PMU`, 16 under
`CONFIG_ARIANE_PMU`. -/
def RISCV_MAX_COUNTERS : Build → Int
  | .base => 2
  | .ariane => 16

def RISCV_PMU_CYCLE : Int := 0
def RISCV_PMU_INSTRET : Int := 1
def RISCV_OP_UNSUPP : Int := -EOPNOTSUPP
def RISCV_OP_L1_ICACHE_MISS : Int := 2
def RISCV_OP_L1_DCACHE_MISS : Int := 3
def RISCV_OP_ITLB_MISS : Int := 4
def RISCV_OP_DTLB_MISS : Int := 5
def RISCV_OP_LOAD : Int := 6
def RISCV_OP_STORE : Int := 7
def RISCV_OP_EXCEPTION : Int := 8
def RISCV_OP_EXCEPTION_RET : Int := 9
def RISCV_OP_BRANCH_JUMP : Int := 10
def RISCV_OP_CALL : Int := 11
def RISCV_OP_RET : Int := 12
def RISCV_OP_MIS_PREDICT : Int := 13
def RISCV_OP_SB_FULL : Int := 14
def RISCV_OP_IF_EMPTY : Int := 15

/-- Modelled from the spec: `include/uapi/linux/perf_event.h` is not under src/; the generic
hardware-event kinds, numbered from `CPU_CYCLES = 0` to `BUS_CYCLES = 6`. -/
def PERF_COUNT_HW_CPU_CYCLES : Nat := 0
/-- Modelled from the spec: `include/uapi/linux/perf_event.h` is not under src/. -/
def PERF_COUNT_HW_INSTRUCTIONS : Nat := 1
/-- Modelled from the spec: `include/uapi/linux/perf_event.h` is not under src/. -/
def PERF_COUNT_HW_CACHE_REFERENCES : Nat := 2
/-- Modelled from the spec: `include/uapi/linux/perf_event.h` is not under src/. -/
def PERF_COUNT_HW_CACHE_MISSES : Nat := 3
/-- Modelled from the spec: `include/uapi/linux/perf_event.h` is not under src/. -/
def PERF_COUNT_HW_BRANCH_INSTRUCTIONS : Nat := 4
/-- Modelled from the spec: `include/uapi/linux/perf_event.h` is not under src/. -/
def PERF_COUNT_HW_BRANCH_MISSES : Nat := 5
/-- Modelled from the spec: `include/uapi/linux/perf_event.h` is not under src/. -/
def PERF_COUNT_HW_BUS_CYCLES : Nat := 6

/-- Modelled from the spec: `include/uapi/linux/perf_event.h` is not under src/; the number of
cache levels of the generic taxonomy (L1D, L1I, LL, DTLB, ITLB, BPU, NODE). -/
def PERF_COUNT_HW_CACHE_MAX : Nat := 7
/-- Modelled from the spec: `include/uapi/linux/perf_event.h` is not under src/; the number of
cache operations (READ, WRITE, PREFETCH). -/
def PERF_COUNT_HW_CACHE_OP_MAX : Nat := 3
/-- Modelled from the spec: `include/uapi/linux/perf_event.h` is not under src/; the number of
cache results (ACCESS, MISS). -/
def PERF_COUNT_HW_CACHE_RESULT_MAX : Nat := 2

/-- Modelled from the spec: `include/uapi/linux/perf_event.h` is not under src/; the event-type
tags of a request (`attr.type`). -/
def PERF_TYPE_HARDWARE : Nat := 0
/-- Modelled from the spec: `include/uapi/linux/perf_event.h` is not under src/. -/
def PERF_TYPE_HW_CACHE : Nat := 3
/-- Modelled from the spec: `include/uapi/linux/perf_event.h` is not under src/. -/
def PERF_TYPE_RAW : Nat := 4

/-- Modelled from the spec: `include/linux/perf_event.h` is not under src/; the `STOPPED`
state flag of an event handle. -/
def PERF_HES_STOPPED : Nat := 1
/-- Modelled from the spec: `include/linux/perf_event.h` is not under src/; the `UPTODATE`
state flag of an event handle. -/
def PERF_HES_UPTODATE : Nat := 2

/-- Modelled from the spec: `include/linux/perf_event.h` is not under src/; the
"start immediately" flag of `add`. -/
def PERF_EF_START : Nat := 1
/-- Modelled from the spec: `include/linux/perf_event.h` is not under src/. -/
def PERF_EF_RELOAD : Nat := 2
/-- Modelled from the spec: `include/linux/perf_event.h` is not under src/; the flush flag of
`stop`. -/
def PERF_EF_UPDATE : Nat := 4

/-! ## Machine integers -/

/-- The modulus of `u64` arithmetic. -/
def U64 : Nat := 2 ^ 64

/-- Conversion of an `int` to `u64` (as in the comparison `config >= riscv_pmu->max_events`
and in `return -EINVAL` from a function returning `u64`). -/
def int_to_u64 (x : Int) : Nat := (x % (U64 : Int)).toNat

/-- Conversion of a `u64` to `int` (as in `hwc->idx = hwc->config`): the low 32 bits, read as a
two's-complement number. -/
def u64_to_int (x : Nat) : Int :=
  if x % 2 ^ 32 < 2 ^ 31 then ((x % 2 ^ 32 : Nat) : Int) else ((x % 2 ^ 32 : Nat) : Int) - 2 ^ 32

/-- Subtraction of `u64` values. -/
def u64_sub (a b : Nat) : Nat := (a % U64 + U64 - b % U64) % U64

/-- The value a 32-bit `int` holds after a computation whose exact result is `x`: the kernel's
signed arithmetic wraps modulo `2 ^ 32`. -/
def int_wrap (x : Int) : Int := (x + 2 ^ 31) % 2 ^ 32 - 2 ^ 31

/-- Modelled from the spec: `linux/atomic.h` is not under src/; the "atomic increment-and-test
on the global active-event counter". Primitive `atomic_inc_return` on the value of an
`atomic_t`, a 32-bit `int` whose arithmetic wraps: the value stored and returned. -/
def atomic_inc_return (v : Int) : Int := int_wrap (v + 1)

/-- Modelled from the spec: `linux/atomic.h` is not under src/; the "atomic
decrement-and-test". Primitive `atomic_dec_return` on the value of an `atomic_t`: the value
stored and returned (`atomic_dec` stores the same value). -/
def atomic_dec_return (v : Int) : Int := int_wrap (v - 1)

/-! ## Hardware and cache maps -/

/-- Table `riscv_hw_event_map`, indexed by generic hardware-event kind. -/
def riscv_hw_event_map : Build → List Int
  | .ariane =>
    [ RISCV_PMU_CYCLE,       -- PERF_COUNT_HW_CPU_CYCLES
      RISCV_PMU_INSTRET,     -- PERF_COUNT_HW_INSTRUCTIONS
      RISCV_OP_UNSUPP,       -- PERF_COUNT_HW_CACHE_REFERENCES
      RISCV_OP_UNSUPP,       -- PERF_COUNT_HW_CACHE_MISSES
      RISCV_OP_BRANCH_JUMP,  -- PERF_COUNT_HW_BRANCH_INSTRUCTIONS
      RISCV_OP_MIS_PREDICT,  -- PERF_COUNT_HW_BRANCH_MISSES
      RISCV_OP_UNSUPP ]      -- PERF_COUNT_HW_BUS_CYCLES
  | .base =>
    [ RISCV_PMU_CYCLE,
      RISCV_PMU_INSTRET,
      RISCV_OP_UNSUPP,
      RISCV_OP_UNSUPP,
      RISCV_OP_UNSUPP,
      RISCV_OP_UNSUPP,
      RISCV_OP_UNSUPP ]

/-- One cache level of `riscv_cache_event_map` in which every entry is `RISCV_OP_UNSUPP`. -/
def cache_level_unsupp : List (List Int) :=
  [ [RISCV_OP_UNSUPP, RISCV_OP_UNSUPP],
    [RISCV_OP_UNSUPP, RISCV_OP_UNSUPP],
    [RISCV_OP_UNSUPP, RISCV_OP_UNSUPP] ]

/-- A cache level that the initialiser of `riscv_cache_event_map` does not list: the array has
`PERF_COUNT_HW_CACHE_MAX` levels, so the level exists and is zero-initialised. -/
def cache_level_zero : List (List Int) :=
  [ [0, 0], [0, 0], [0, 0] ]

/-- Table `riscv_cache_event_map`, indexed by level, operation (READ, WRITE, PREFETCH) and
result (ACCESS, MISS). -/
def riscv_cache_event_map : Build → List (List (List Int))
  | .ariane =>
    [ -- L1D
      [ [RISCV_OP_LOAD, RISCV_OP_L1_DCACHE_MISS],
        [RISCV_OP_STORE, RISCV_OP_L1_DCACHE_MISS],
        [RISCV_OP_LOAD, RISCV_OP_L1_DCACHE_MISS] ],
      -- L1I
      [ [RISCV_OP_IF_EMPTY, RISCV_OP_L1_ICACHE_MISS],
        [RISCV_OP_IF_EMPTY, RISCV_OP_L1_ICACHE_MISS],
        [RISCV_OP_IF_EMPTY, RISCV_OP_L1_ICACHE_MISS] ],
      -- LL
      cache_level_unsupp,
      -- DTLB
      [ [RISCV_OP_UNSUPP, RISCV_OP_DTLB_MISS],
        [RISCV_OP_UNSUPP, RISCV_OP_DTLB_MISS],
        [RISCV_OP_UNSUPP, RISCV_OP_DTLB_MISS] ],
      -- ITLB
      [ [RISCV_OP_UNSUPP, RISCV_OP_ITLB_MISS],
        [RISCV_OP_UNSUPP, RISCV_OP_ITLB_MISS],
        [RISCV_OP_UNSUPP, RISCV_OP_ITLB_MISS] ],
      -- BPU
      cache_level_unsupp,
      -- NODE (not listed)
      cache_level_zero ]
  | .base =>
    [ cache_level_unsupp, cache_level_unsupp, cache_level_unsupp,
      cache_level_unsupp, cache_level_unsupp, cache_level_unsupp,
      cache_level_zero ]

/-- The platform descriptor `struct riscv_pmu` (the fields the engine reads). The method
pointers `map_hw_event`, `map_cache_event` and the `pmu` callbacks are the functions of this
file in the only descriptor there is, and are called directly. `cache_events` is `none` for a
null pointer; `handle_irq` says whether the handler pointer is non-null. -/
structure riscv_pmu where
  hw_events : List Int
  cache_events : Option (List (List (List Int)))
  max_events : Int
  num_counters : Int
  counter_width : Int
  handle_irq : Bool
  irq : Int

/-- The descriptor `riscv_base_pmu`. -/
def riscv_base_pmu (b : Build) : riscv_pmu where
  max_events := (riscv_hw_event_map b).length
  hw_events := riscv_hw_event_map b
  cache_events := some (riscv_cache_event_map b)
  counter_width := 63
  num_counters :=
    match b with
    | .ariane => RISCV_MAX_COUNTERS .ariane + 0
    | .base => RISCV_BASE_COUNTERS + 0
  handle_irq := true
  irq := -1

/-- Function `riscv_map_hw_event`. -/
def riscv_map_hw_event (pmu : riscv_pmu) (config : Nat) : Option Int :=
  if config ≥ int_to_u64 pmu.max_events then
    some (-EINVAL)
  else
    pmu.hw_events[config]?

/-- Function `riscv_map_cache_decode`: the return value and, when they are written, the three
out-parameters `type`, `op`, `result`. -/
def riscv_map_cache_decode (b : Build) (config : Nat) : Int × Option (Nat × Nat × Nat) :=
  match b with
  | .ariane => (0, some (config &&& 0xFF, (config >>> 8) &&& 0xFF, (config >>> 16) &&& 0xFF))
  | .base => (-ENOENT, none)

/-- Function `riscv_map_cache_event`. -/
def riscv_map_cache_event (b : Build) (pmu : riscv_pmu) (config : Nat) : Option Int :=
  let (err, dec) := riscv_map_cache_decode b config
  match pmu.cache_events with
  | none => some err
  | some cache_events =>
    if err ≠ 0 then
      some err
    else
      match dec with
      | none => none
      | some (type, op, result) =>
        if type ≥ PERF_COUNT_HW_CACHE_MAX ∨
            op ≥ PERF_COUNT_HW_CACHE_OP_MAX ∨
            result ≥ PERF_COUNT_HW_CACHE_RESULT_MAX then
          some (-EINVAL)
        else
          match cache_events[type]? with
          | none => none
          | some level =>
            match level[op]? with
            | none => none
            | some row =>
              match row[result]? with
              | none => none
              | some code => if code = RISCV_OP_UNSUPP then some (-EINVAL) else some code

/-! ## Low-level functions: reading counters -/

/-- The control and status registers, by CSR number, at the time of a call. -/
structure Hw where
  csr : Nat → Nat

/-- CSR number of the user-mode shadow `cycle` read by the base build. -/
def CSR_CYCLE_U : Nat := 0xC00
/-- CSR number of the user-mode shadow `instret` read by the base build. -/
def CSR_INSTRET_U : Nat := 0xC02

/-- A read of one CSR (`csr_read` on the base build, `sbi_pmu_csr_read` on Ariane): a `u64`. -/
def csr_read (hw : Hw) (csr : Nat) : Nat := hw.csr csr % U64

/-- Table `riscv_event_idx_csr_map` (the machine-mode CSR numbers; `USE_M_MODE` is 1). -/
def riscv_event_idx_csr_map : List Nat :=
  [ 0xB00,  -- RISCV_PMU_CYCLE
    0xB02,  -- RISCV_PMU_INSTRET
    0xB03,  -- RISCV_OP_L1_ICACHE_MISS
    0xB04,  -- RISCV_OP_L1_DCACHE_MISS
    0xB05,  -- RISCV_OP_ITLB_MISS
    0xB06,  -- RISCV_OP_DTLB_MISS
    0xB07,  -- RISCV_OP_LOAD
    0xB08,  -- RISCV_OP_STORE
    0xB09,  -- RISCV_OP_EXCEPTION
    0xB0A,  -- RISCV_OP_EXCEPTION_RET
    0xB0B,  -- RISCV_OP_BRANCH_JUMP
    0xB0C,  -- RISCV_OP_CALL
    0xB0D,  -- RISCV_OP_RET
    0xB0E,  -- RISCV_OP_MIS_PREDICT
    0xB0F,  -- RISCV_OP_SB_FULL
    0xB10 ] -- RISCV_OP_IF_EMPTY

/-- Function `read_counter`. The range test of the Ariane build keeps the index within the 16
entries of `riscv_event_idx_csr_map`. For an index with no counter the function returns
`-EINVAL`, converted to its return type `u64`. -/
def read_counter (b : Build) (hw : Hw) (idx : Int) : Nat :=
  match b with
  | .ariane =>
    if idx ≥ RISCV_PMU_CYCLE ∧ idx ≤ RISCV_OP_IF_EMPTY then
      if RISCV_OP_BRANCH_JUMP = idx then
        csr_read hw (riscv_event_idx_csr_map.getD RISCV_OP_BRANCH_JUMP.toNat 0)
      else
        csr_read hw (riscv_event_idx_csr_map.getD idx.toNat 0)
    else
      int_to_u64 (-EINVAL)
  | .base =>
    if idx = RISCV_PMU_CYCLE then csr_read hw CSR_CYCLE_U
    else if idx = RISCV_PMU_INSTRET then csr_read hw CSR_INSTRET_U
    else int_to_u64 (-EINVAL)

/-! ## Event handles and the per-CPU slot table -/

/-- The fields of `struct hw_perf_event` the engine uses: `config` (a `u64`, the resolved
code), `idx` (the assigned index), `state` (the flags) and `prev_count` (the baseline). -/
structure hw_perf_event where
  config : Nat
  idx : Int
  state : Nat
  prev_count : Nat

/-- The request record `struct perf_event_attr`: kind tag and 64-bit payload. -/
structure perf_event_attr where
  type : Nat
  config : Nat

/-- The fields of `struct perf_event` the engine uses. `id` stands for the address of the
event, which is what the slot table stores; `count` is the logical count; `destroy` says
whether the destroy hook has been set to `riscv_event_destroy`. -/
structure perf_event where
  id : Nat
  attr : perf_event_attr
  hw : hw_perf_event
  count : Nat
  destroy : Bool

/-- The per-CPU `struct cpu_hw_events`: `events` has `RISCV_MAX_COUNTERS` slots, each holding
the address of its owner or nothing (`NULL`). -/
structure cpu_hw_events where
  n_events : Int
  events : Nat → Option Nat

/-- The slot table of a CPU at start-up (zero-initialised per-CPU data). -/
def cpu_hw_events_empty : cpu_hw_events where
  n_events := 0
  events := fun _ => none

/-- A store `cpuc->events[idx] = v`; `none` when `idx` is outside the array. -/
def events_store (b : Build) (cpuc : cpu_hw_events) (idx : Int) (v : Option Nat) :
    Option cpu_hw_events :=
  if 0 ≤ idx ∧ idx < RISCV_MAX_COUNTERS b then
    some { cpuc with events := fun i => if i = idx.toNat then v else cpuc.events i }
  else
    none

/-! ## pmu->read -/

/-- Primitive `local64_cmpxchg` executed without interference: the value found in the cell,
and the cell afterwards. -/
def local64_cmpxchg (cell old new : Nat) : Nat × Nat :=
  (cell, if cell = old then new else cell)

/-- The `do ... while (oldval != prev_raw_count)` loop of `riscv_pmu_read` on the cell
`hwc->prev_count`: returns `prev_raw_count`, `new_raw_count` and the cell afterwards. -/
def riscv_pmu_read_loop (b : Build) (hw : Hw) (idx : Int) : Nat → Nat → Option (Nat × Nat × Nat)
  | 0, _ => none
  | fuel + 1, cell =>
    let prev_raw_count := cell
    let new_raw_count := read_counter b hw idx
    let r := local64_cmpxchg cell prev_raw_count new_raw_count
    if r.1 ≠ prev_raw_count then
      riscv_pmu_read_loop b hw idx fuel r.2
    else
      some (prev_raw_count, new_raw_count, r.2)

/-- Function `riscv_pmu_read`. The shift `1ULL << counter_width` is defined only for
`0 <= counter_width < 64`. -/
def riscv_pmu_read (b : Build) (pmu : riscv_pmu) (hw : Hw) (fuel : Nat) (event : perf_event) :
    Option perf_event :=
  let hwc := event.hw
  let idx := hwc.idx
  match riscv_pmu_read_loop b hw idx fuel hwc.prev_count with
  | none => none
  | some (prev_raw_count, new_raw_count, cell) =>
    if pmu.counter_width < 0 ∨ 64 ≤ pmu.counter_width then
      none
    else
      let delta := u64_sub new_raw_count prev_raw_count &&&
        u64_sub (1 <<< pmu.counter_width.toNat) 1
      some { event with
        hw := { hwc with prev_count := cell }
        count := (event.count + delta) % U64 }

/-! ## State transition functions -/

/-- Function `riscv_pmu_stop`. -/
def riscv_pmu_stop (b : Build) (pmu : riscv_pmu) (hw : Hw) (fuel : Nat) (event : perf_event)
    (flags : Nat) : Option perf_event :=
  let event1 := { event with hw := { event.hw with state := event.hw.state ||| PERF_HES_STOPPED } }
  if flags &&& PERF_EF_UPDATE ≠ 0 ∧ ¬ (event1.hw.state &&& PERF_HES_UPTODATE ≠ 0) then
    match riscv_pmu_read b pmu hw fuel event1 with
    | none => none
    | some event2 =>
      some { event2 with hw := { event2.hw with state := event2.hw.state ||| PERF_HES_UPTODATE } }
  else
    some event1

/-- Function `riscv_pmu_start`. -/
def riscv_pmu_start (b : Build) (hw : Hw) (event : perf_event) (_flags : Nat) : perf_event :=
  if ¬ (event.hw.state &&& PERF_HES_STOPPED ≠ 0) then
    event
  else
    { event with hw := { event.hw with state := 0, prev_count := read_counter b hw event.hw.idx } }

/-- Function `riscv_pmu_add`: the return value, the slot table and the event afterwards. -/
def riscv_pmu_add (b : Build) (pmu : riscv_pmu) (hw : Hw) (cpuc : cpu_hw_events)
    (event : perf_event) (flags : Nat) : Option (Int × cpu_hw_events × perf_event) :=
  if cpuc.n_events = pmu.num_counters then
    some (-ENOSPC, cpuc, event)
  else
    let event1 := { event with hw := { event.hw with idx := u64_to_int event.hw.config } }
    match events_store b cpuc event1.hw.idx (some event1.id) with
    | none => none
    | some cpuc1 =>
      let cpuc2 := { cpuc1 with n_events := cpuc1.n_events + 1 }
      let event2 :=
        { event1 with hw := { event1.hw with state := PERF_HES_UPTODATE ||| PERF_HES_STOPPED } }
      if flags &&& PERF_EF_START ≠ 0 then
        some (0, cpuc2, riscv_pmu_start b hw event2 PERF_EF_RELOAD)
      else
        some (0, cpuc2, event2)

/-- Function `riscv_pmu_del`: the slot table and the event afterwards. -/
def riscv_pmu_del (b : Build) (pmu : riscv_pmu) (hw : Hw) (fuel : Nat) (cpuc : cpu_hw_events)
    (event : perf_event) (_flags : Nat) : Option (cpu_hw_events × perf_event) :=
  match events_store b cpuc event.hw.idx none with
  | none => none
  | some cpuc1 =>
    let cpuc2 := { cpuc1 with n_events := cpuc1.n_events - 1 }
    match riscv_pmu_stop b pmu hw fuel event PERF_EF_UPDATE with
    | none => none
    | some event1 => some (cpuc2, event1)

/-! ## Hardware reservation, event initialisation and finalisation -/

/-- What the engine asks of the hardware and of the interrupt layer, in the order asked:
calls of `reserve_pmc_hardware` and `release_pmc_hardware`, and inside them the calls of
`request_irq` (with its return value) and `free_irq`. -/
inductive pmc_op where
  | reserve
  | request_irq (irq : Int) (ret : Int)
  | release
  | free_irq (irq : Int)
  deriving DecidableEq, Repr

/-- The process-wide state: the value of the `atomic_t` counter `riscv_active_events` (a
32-bit `int`, written only through `atomic_inc_return` and `atomic_dec_return`) and the record
of the calls. -/
structure pmc_global where
  riscv_active_events : Int
  log : List pmc_op
  deriving DecidableEq, Repr

/-- Function `reserve_pmc_hardware`; `irq_ret` is what `request_irq` returns if it is called. -/
def reserve_pmc_hardware (pmu : riscv_pmu) (irq_ret : Int) (g : pmc_global) : Int × pmc_global :=
  let g1 := { g with log := g.log ++ [pmc_op.reserve] }
  if pmu.irq ≥ 0 ∧ pmu.handle_irq = true then
    (irq_ret, { g1 with log := g1.log ++ [pmc_op.request_irq pmu.irq irq_ret] })
  else
    (0, g1)

/-- Function `release_pmc_hardware`. -/
def release_pmc_hardware (pmu : riscv_pmu) (g : pmc_global) : pmc_global :=
  let g1 := { g with log := g.log ++ [pmc_op.release] }
  if pmu.irq ≥ 0 then
    { g1 with log := g1.log ++ [pmc_op.free_irq pmu.irq] }
  else
    g1

/-- Function `riscv_event_destroy`. -/
def riscv_event_destroy (pmu : riscv_pmu) (g : pmc_global) : pmc_global :=
  let g1 := { g with riscv_active_events := atomic_dec_return g.riscv_active_events }
  if g1.riscv_active_events = 0 then release_pmc_hardware pmu g1 else g1

/-- The part of `riscv_event_init` from the `switch` on the event type to the end; `g` is the
process-wide state when the `switch` is reached. -/
def riscv_event_init_map (b : Build) (pmu : riscv_pmu) (g : pmc_global) (event : perf_event) :
    Option (Int × pmc_global × perf_event) :=
  let mapped : Option (Except Int Int) :=
    if event.attr.type = PERF_TYPE_HARDWARE then
      (riscv_map_hw_event pmu event.attr.config).map Except.ok
    else if event.attr.type = PERF_TYPE_HW_CACHE then
      (riscv_map_cache_event b pmu event.attr.config).map Except.ok
    else if event.attr.type = PERF_TYPE_RAW then
      some (Except.error (-EOPNOTSUPP))
    else
      some (Except.error (-ENOENT))
  match mapped with
  | none => none
  | some (Except.error ret) => some (ret, g, event)
  | some (Except.ok code) =>
    let event1 := { event with destroy := true }
    if code < 0 then
      some (code, riscv_event_destroy pmu g, event1)
    else
      some (0, g, { event1 with hw := { event1.hw with config := code.toNat, idx := -1 } })

/-- Function `riscv_event_init`: the return value, the process-wide state and the event
afterwards; `irq_ret` is what `request_irq` returns if it is called. -/
def riscv_event_init (b : Build) (pmu : riscv_pmu) (irq_ret : Int) (g : pmc_global)
    (event : perf_event) : Option (Int × pmc_global × perf_event) :=
  let g1 := { g with riscv_active_events := atomic_inc_return g.riscv_active_events }
  if g1.riscv_active_events = 1 then
    let r := reserve_pmc_hardware pmu irq_ret g1
    if r.1 ≠ 0 then
      some (-EBUSY,
        { r.2 with riscv_active_events := atomic_dec_return r.2.riscv_active_events }, event)
    else
      riscv_event_init_map b pmu r.2 event
  else
    riscv_event_init_map b pmu g1 event

/-! ## Concrete inputs used by the witnesses and counterexamples -/

/-- The base descriptor with the counter width set to 8. -/
def pmu_width8 : riscv_pmu := { riscv_base_pmu .base with counter_width := 8 }

/-- Hardware whose `cycle` register (base build) holds `v`; every other register holds 0. -/
def hw_cycle (v : Nat) : Hw := { csr := fun a => if a = CSR_CYCLE_U then v else 0 }

/-- The process-wide state at start-up: `ATOMIC_INIT(0)` and nothing asked of the hardware. -/
def pmc_global_init : pmc_global := { riscv_active_events := 0, log := [] }

/-- A request for a hardware event of kind `kind`, as the framework hands it to
`riscv_event_init`: a zeroed handle with address `id`. -/
def hw_request (id kind : Nat) : perf_event :=
  { id := id, attr := { type := PERF_TYPE_HARDWARE, config := kind },
    hw := { config := 0, idx := 0, state := 0, prev_count := 0 }, count := 0, destroy := false }

/-- A running cycle-counter event on the base build with baseline 250 and logical count 5. -/
def event_c1 : perf_event :=
  { id := 1, attr := { type := PERF_TYPE_HARDWARE, config := PERF_COUNT_HW_CPU_CYCLES },
    hw := { config := 0, idx := 0, state := 0, prev_count := 250 }, count := 5, destroy := true }

/-- The Ariane descriptor with the cache-event table absent (`cache_events` null). -/
def pmu_ariane_no_cache : riscv_pmu := { riscv_base_pmu .ariane with cache_events := none }

/-- A request of event type `type` with payload `config`: a zeroed handle with address `id`. -/
def typed_request (id type config : Nat) : perf_event :=
  { id := id, attr := { type := type, config := config },
    hw := { config := 0, idx := 0, state := 0, prev_count := 0 }, count := 0, destroy := false }


/-- An event handle as `riscv_event_init` leaves it on success: resolved code `code` in
`hw.config`, assigned index unset (`-1`); `id` is its address. -/
def resolved_event (id code : Nat) : perf_event :=
  { id := id, attr := { type := PERF_TYPE_HARDWARE, config := code },
    hw := { config := code, idx := -1, state := 0, prev_count := 0 }, count := 0, destroy := true }

/-- A slot table of the base build with both counters in use, by the events at addresses 1
and 2. -/
def cpuc_full : cpu_hw_events :=
  { n_events := 2, events := fun i => if i = 0 then some 1 else if i = 1 then some 2 else none }

/-! ## Sequences of calls -/

/-- The slot table of one CPU together with the handles of the events that are added and not
yet deleted, as `riscv_pmu_add` left them. -/
structure slot_state where
  cpuc : cpu_hw_events
  live : List perf_event

/-- The states reached from the empty slot table by `riscv_pmu_add` and `riscv_pmu_del` calls
that obey the lifecycle: `del` is applied only to an event that is added and not yet deleted
(one of the handles in `live`, which it leaves). With `excl = true` the sequences are
moreover those in which no event is added while an event with the same resolved code (the
index `add` assigns) is still added. -/
inductive slot_reach (b : Build) (pmu : riscv_pmu) (fuel : Nat) (excl : Bool) :
    slot_state → Prop where
  | empty : slot_reach b pmu fuel excl { cpuc := cpu_hw_events_empty, live := [] }
  | add_ok (s : slot_state) (hw : Hw) (e : perf_event) (flags : Nat) (c1 : cpu_hw_events)
      (e1 : perf_event) :
      slot_reach b pmu fuel excl s →
      (excl = true → ∀ x ∈ s.live, x.hw.idx ≠ u64_to_int e.hw.config) →
      riscv_pmu_add b pmu hw s.cpuc e flags = some (0, c1, e1) →
      slot_reach b pmu fuel excl { cpuc := c1, live := e1 :: s.live }
  | add_fail (s : slot_state) (hw : Hw) (e : perf_event) (flags : Nat) (ret : Int)
      (c1 : cpu_hw_events) (e1 : perf_event) :
      slot_reach b pmu fuel excl s →
      riscv_pmu_add b pmu hw s.cpuc e flags = some (ret, c1, e1) →
      ret ≠ 0 →
      slot_reach b pmu fuel excl { cpuc := c1, live := s.live }
  | del (cpuc : cpu_hw_events) (l1 l2 : List perf_event) (e : perf_event) (hw : Hw)
      (flags : Nat) (c1 : cpu_hw_events) (e1 : perf_event) :
      slot_reach b pmu fuel excl { cpuc := cpuc, live := l1 ++ e :: l2 } →
      riscv_pmu_del b pmu hw fuel cpuc e flags = some (c1, e1) →
      slot_reach b pmu fuel excl { cpuc := c1, live := l1 ++ l2 }

/-- The number of non-empty slots of the slot array. -/
def occupied_slots (b : Build) (cpuc : cpu_hw_events) : Nat :=
  ((List.range (RISCV_MAX_COUNTERS b).toNat).filter (fun i => (cpuc.events i).isSome)).length

/-- An added, stopped and up-to-date cycle-counter event on the base build, with logical count
5 and an old baseline 250. -/
def event_stopped : perf_event :=
  { id := 1, attr := { type := PERF_TYPE_HARDWARE, config := PERF_COUNT_HW_CPU_CYCLES },
    hw := { config := 0, idx := 0, state := PERF_HES_UPTODATE ||| PERF_HES_STOPPED,
            prev_count := 250 },
    count := 5, destroy := true }

/-- Successive `riscv_pmu_read` calls on one event, the registers being `hws` at the times of
the calls: the handle after each call (its `count` is the value that read returns). -/
def riscv_pmu_read_seq (b : Build) (pmu : riscv_pmu) (fuel : Nat) :
    List Hw → perf_event → Option (List perf_event)
  | [], _ => some []
  | hw :: rest, event =>
    match riscv_pmu_read b pmu hw fuel event with
    | none => none
    | some event1 =>
      match riscv_pmu_read_seq b pmu fuel rest event1 with
      | none => none
      | some events => some (event1 :: events)

/-- The process-wide state together with the handles that are successfully initialised and not
yet destroyed; `idle_inits` counts the `riscv_event_init` calls made so far while no such
handle existed. -/
structure pmc_state where
  g : pmc_global
  live : List perf_event
  idle_inits : Nat

/-- The states reached from start-up by sequential `riscv_event_init` and
`riscv_event_destroy` calls, destroy being applied only to a successfully initialised handle
that is not yet destroyed (one of the handles in `live`, which it leaves). `adm` says which
requests, with which answer of `request_irq`, the sequences contain. The handles initialised
at one time are fewer than `2 ^ 31`, the range of the 32-bit counter; the number of rejected
requests is not limited. -/
inductive pmc_reach (b : Build) (pmu : riscv_pmu) (adm : perf_event → Int → Prop) :
    pmc_state → Prop where
  | start : pmc_reach b pmu adm { g := pmc_global_init, live := [], idle_inits := 0 }
  | init_ok (s : pmc_state) (e : perf_event) (irq_ret : Int) (g1 : pmc_global)
      (e1 : perf_event) :
      pmc_reach b pmu adm s →
      adm e irq_ret →
      (s.live.length : Int) + 1 < 2 ^ 31 →
      riscv_event_init b pmu irq_ret s.g e = some (0, g1, e1) →
      pmc_reach b pmu adm
        { g := g1, live := e1 :: s.live
          idle_inits := s.idle_inits + (if s.live.isEmpty then 1 else 0) }
  | init_fail (s : pmc_state) (e : perf_event) (irq_ret : Int) (ret : Int) (g1 : pmc_global)
      (e1 : perf_event) :
      pmc_reach b pmu adm s →
      adm e irq_ret →
      riscv_event_init b pmu irq_ret s.g e = some (ret, g1, e1) →
      ret ≠ 0 →
      pmc_reach b pmu adm
        { g := g1, live := s.live
          idle_inits := s.idle_inits + (if s.live.isEmpty then 1 else 0) }
  | destroy (g : pmc_global) (l1 l2 : List perf_event) (e : perf_event) (k : Nat) :
      pmc_reach b pmu adm { g := g, live := l1 ++ e :: l2, idle_inits := k } →
      pmc_reach b pmu adm
        { g := riscv_event_destroy pmu g, live := l1 ++ l2, idle_inits := k }

/-- Every request, whatever `request_irq` answers. -/
def adm_all : perf_event → Int → Prop := fun _ _ => True

/-- The requests of type HARDWARE or HW_CACHE, whatever `request_irq` answers. -/
def adm_typed : perf_event → Int → Prop := fun e _ =>
  e.attr.type = PERF_TYPE_HARDWARE ∨ e.attr.type = PERF_TYPE_HW_CACHE

/-- The effect of one recorded call on whether the hardware is reserved: a
`reserve_pmc_hardware` reserves it unless its `request_irq` fails, a `release_pmc_hardware`
ends the reservation. -/
def hw_reserved_step (r : Bool) : pmc_op → Bool
  | .reserve => true
  | .request_irq _ ret => if ret = 0 then r else false
  | .release => false
  | .free_irq _ => r

/-- Whether the hardware is reserved after the recorded calls. -/
def hw_reserved (log : List pmc_op) : Bool := log.foldl hw_reserved_step false

/-- The calls that `reserve_pmc_hardware` records. -/
def reserve_ops (pmu : riscv_pmu) (irq_ret : Int) : List pmc_op :=
  if pmu.irq ≥ 0 ∧ pmu.handle_irq = true then
    [pmc_op.reserve, pmc_op.request_irq pmu.irq irq_ret]
  else [pmc_op.reserve]

/-- The calls that `release_pmc_hardware` records. -/
def release_ops (pmu : riscv_pmu) : List pmc_op :=
  if pmu.irq ≥ 0 then [pmc_op.release, pmc_op.free_irq pmu.irq] else [pmc_op.release]

/-- The base descriptor with an interrupt line (5) and a handler. -/
def pmu_irq : riscv_pmu := { riscv_base_pmu .base with irq := 5 }

/-- The base descriptor with an interrupt line (5) and no handler (`handle_irq` null). -/
def pmu_irq_no_handler : riscv_pmu := { riscv_base_pmu .base with irq := 5, handle_irq := false }

/-! ## Theorems -/

/-- A wrapped value lies in the range of a 32-bit `int`, and a value in that range is not
changed by wrapping. -/
theorem int_wrap_range (x : Int) :
    -2 ^ 31 ≤ int_wrap x ∧ int_wrap x < 2 ^ 31 ∧
    (-2 ^ 31 ≤ x → x < 2 ^ 31 → int_wrap x = x) := by
  unfold int_wrap
  omega

/-- On a counter value in the range of a 32-bit `int`: `atomic_inc_return` gives 1 exactly
from 0, `atomic_dec_return` gives 0 exactly from 1, and a decrement undoes an increment. -/
theorem atomic_counter_tests (v : Int) (h1 : -2 ^ 31 ≤ v) (h2 : v < 2 ^ 31) :
    (atomic_inc_return v = 1 ↔ v = 0) ∧ (atomic_dec_return v = 0 ↔ v = 1) ∧
    atomic_dec_return (atomic_inc_return v) = v := by
  unfold atomic_inc_return atomic_dec_return int_wrap
  omega

/-- Away from the ends of the range, `atomic_inc_return` adds one and `atomic_dec_return`
takes one off. -/
theorem atomic_counter_exact (v : Int) :
    (-2 ^ 31 ≤ v + 1 → v + 1 < 2 ^ 31 → atomic_inc_return v = v + 1) ∧
    (-2 ^ 31 ≤ v - 1 → v - 1 < 2 ^ 31 → atomic_dec_return v = v - 1) := by
  unfold atomic_inc_return atomic_dec_return int_wrap
  omega

/-- The retry loop of `riscv_pmu_read` ends after one pass when nothing else touches the
baseline: it yields the old baseline and the register value, and stores the latter. -/
theorem riscv_pmu_read_loop_succ (b : Build) (hw : Hw) (idx : Int) (fuel cell : Nat) :
    riscv_pmu_read_loop b hw idx (fuel + 1) cell
      = some (cell, read_counter b hw idx, read_counter b hw idx) := by
  simp [riscv_pmu_read_loop, local64_cmpxchg]

/-- The mask `(1ULL << w) - 1` is `2 ^ w - 1` for a width below 64. -/
theorem u64_mask_eq (w : Nat) (hw : w ≤ 63) : u64_sub (1 <<< w) 1 = 2 ^ w - 1 := by
  have h1 : 2 ^ w < 2 ^ 64 := Nat.pow_lt_pow_right (by norm_num) (by omega)
  have h2 : 0 < 2 ^ w := Nat.pos_pow_of_pos _ (by norm_num)
  unfold u64_sub U64
  rw [Nat.one_shiftLeft]
  generalize 2 ^ w = x at h1 h2 ⊢
  omega

/-- The masked `u64` difference, as an integer expression. -/
theorem u64_delta_eq (raw prev w : Nat) :
    ((u64_sub raw prev % 2 ^ w : Nat) : Int) = ((raw : Int) - (prev : Int)) % 2 ^ 64 % 2 ^ w := by
  have hx : ((u64_sub raw prev : Nat) : Int) = ((raw : Int) - (prev : Int)) % 2 ^ 64 := by
    unfold u64_sub U64
    omega
  rw [Int.natCast_mod, hx]
  norm_cast

/-- Every value `read_counter` returns is a `u64`. -/
theorem read_counter_lt (b : Build) (hw : Hw) (idx : Int) : read_counter b hw idx < 2 ^ 64 := by
  have hm : ∀ a, csr_read hw a < 2 ^ 64 := fun a => by unfold csr_read U64; omega
  have he : int_to_u64 (-EINVAL) < 2 ^ 64 := by decide
  unfold read_counter
  cases b <;> simp only <;> split_ifs <;> first | exact hm _ | exact he

/-- One update with a width `w` between 0 and 63: the baseline becomes the register value and
the logical count grows by the masked difference. -/
theorem riscv_pmu_read_eq (b : Build) (pmu : riscv_pmu) (hw : Hw) (fuel : Nat)
    (event : perf_event) (w : Nat) (hwidth : pmu.counter_width = (w : Int)) (hw63 : w ≤ 63) :
    riscv_pmu_read b pmu hw (fuel + 1) event
      = some { event with
          hw := { event.hw with prev_count := read_counter b hw event.hw.idx }
          count := (event.count
            + u64_sub (read_counter b hw event.hw.idx) event.hw.prev_count % 2 ^ w) % U64 } := by
  have hn : ¬ ((w : Int) < 0 ∨ 64 ≤ (w : Int)) := by omega
  simp only [riscv_pmu_read, riscv_pmu_read_loop_succ, hwidth, hn, if_false, Int.toNat_ofNat,
    u64_mask_eq w hw63, Nat.and_pow_two_sub_one_eq_mod]

/-- C1: for every counter width `w <= 63` (so for `1 <= w <= 63`), every baseline `prev` and
every register value `raw` (a 64-bit value), one uncontended `riscv_pmu_read` (any positive fuel for its retry
loop) sets the baseline to `raw` and adds exactly `((raw - prev) mod 2^64) mod 2^w` to the
logical count, the addition being modulo `2^64`. -/
theorem riscv_pmu_read_delta (b : Build) (pmu : riscv_pmu) (hw : Hw) (fuel : Nat)
    (event : perf_event) (w prev raw : Nat)
    (hw63 : w ≤ 63) (hwidth : pmu.counter_width = (w : Int))
    (hprev : event.hw.prev_count = prev)
    (hraw : read_counter b hw event.hw.idx = raw) :
    raw < 2 ^ 64 ∧
    riscv_pmu_read b pmu hw (fuel + 1) event
      = some { event with
          hw := { event.hw with prev_count := raw }
          count := (event.count
            + ((((raw : Int) - (prev : Int)) % 2 ^ 64) % 2 ^ w).toNat) % 2 ^ 64 } := by
  refine ⟨hraw ▸ read_counter_lt b hw _, ?_⟩
  rw [riscv_pmu_read_eq b pmu hw fuel event w hwidth hw63, hraw, hprev, ← u64_delta_eq,
    Int.toNat_ofNat]
  rfl


/-- Witness of C1: width 8, baseline 250, register value 10: the added delta is 16. -/
theorem riscv_pmu_read_delta_witness :
    riscv_pmu_read .base pmu_width8 (hw_cycle 10) 1 event_c1
      = some { event_c1 with hw := { event_c1.hw with prev_count := 10 }, count := 5 + 16 } :=
  (riscv_pmu_read_delta .base pmu_width8 (hw_cycle 10) 0 event_c1 8 250 10
    (by decide) rfl rfl (by decide)).2

/-- `riscv_event_init` of a hardware event whose kind maps to a counter code `c >= 0`. -/
theorem riscv_event_init_hw_ok (b : Build) (pmu : riscv_pmu) (irq_ret : Int) (g : pmc_global)
    (event : perf_event) (c : Int) (htype : event.attr.type = PERF_TYPE_HARDWARE)
    (hmap : riscv_map_hw_event pmu event.attr.config = some c) (hc : 0 ≤ c)
    (hirq : pmu.irq < 0) :
    ∃ g1, riscv_event_init b pmu irq_ret g event
      = some (0, g1, { event with
          destroy := true
          hw := { event.hw with config := c.toNat, idx := -1 } }) := by
  have hno : ¬ (pmu.irq ≥ 0 ∧ pmu.handle_irq = true) := by omega
  have hc2 : ¬ c < 0 := by omega
  unfold riscv_event_init
  by_cases h1 : atomic_inc_return g.riscv_active_events = 1
  · simp [h1, reserve_pmc_hardware, hno, riscv_event_init_map, htype, hmap, hc2]
  · simp [h1, riscv_event_init_map, htype, hmap, hc2]



/-- The array bound `RISCV_MAX_COUNTERS` is at most 16 on either build. -/
theorem RISCV_MAX_COUNTERS_le (b : Build) : RISCV_MAX_COUNTERS b ≤ 16 := by
  cases b <;> decide

/-- A small `u64` converts to the same `int`. -/
theorem u64_to_int_small (c : Nat) (hc : c < 2 ^ 31) : u64_to_int c = (c : Int) := by
  have h : c % 2 ^ 32 = c := Nat.mod_eq_of_lt (by omega)
  unfold u64_to_int
  rw [h, if_pos hc]

/-- `riscv_pmu_add` on a table that is not full, for an event whose resolved code `c` is an
index of the slot array: the code becomes the assigned index, slot `c` is written, the count of
events grows by one, and the event is started when `PERF_EF_START` is given. -/
theorem riscv_pmu_add_ok (b : Build) (pmu : riscv_pmu) (hw : Hw) (cpuc : cpu_hw_events)
    (event : perf_event) (flags c : Nat) (hn : cpuc.n_events ≠ pmu.num_counters)
    (hcfg : event.hw.config = c) (hc : (c : Int) < RISCV_MAX_COUNTERS b) :
    riscv_pmu_add b pmu hw cpuc event flags
      = some (0,
          { n_events := cpuc.n_events + 1
            events := fun i => if i = c then some event.id else cpuc.events i },
          if flags &&& PERF_EF_START ≠ 0 then
            { event with hw := { event.hw with
                idx := c, state := 0, prev_count := read_counter b hw c } }
          else
            { event with hw := { event.hw with
                idx := c, state := PERF_HES_UPTODATE ||| PERF_HES_STOPPED } }) := by
  have h16 := RISCV_MAX_COUNTERS_le b
  have hci : u64_to_int c = (c : Int) := u64_to_int_small c (by omega)
  have hb : (0 : Int) ≤ (c : Int) ∧ (c : Int) < RISCV_MAX_COUNTERS b := ⟨by omega, hc⟩
  have hst : ¬ ¬ ((PERF_HES_UPTODATE ||| PERF_HES_STOPPED) &&& PERF_HES_STOPPED ≠ 0) := by decide
  unfold riscv_pmu_add
  rw [if_neg hn]
  simp only [hcfg, hci, events_store, hb, and_self, if_true, Int.toNat_ofNat]
  by_cases hs : flags &&& PERF_EF_START ≠ 0
  · rw [if_pos hs, if_pos hs]
    simp only [riscv_pmu_start, hst, if_false]
  · rw [if_neg hs, if_neg hs]



/-- A register that advanced by `k < 2 ^ w` ticks, wrapping at `m >= w` bits, shows a masked
difference of exactly `k`. -/
theorem u64_sub_advance (r1 r2 k w m : Nat) (hw : w ≤ 64) (hwm : w ≤ m) (hk : k < 2 ^ w)
    (hadv : r2 = (r1 + k) % 2 ^ m) : u64_sub r2 r1 % 2 ^ w = k := by
  have hdvd : ((2 : Int) ^ w) ∣ 2 ^ m := pow_dvd_pow 2 hwm
  have h1 : ((r2 : Int)) ≡ (r1 : Int) + k [ZMOD 2 ^ m] := by
    rw [hadv]
    push_cast
    exact Int.mod_modEq _ _
  have h2 : ((r2 : Int)) - r1 ≡ k [ZMOD 2 ^ w] := by
    have := (h1.of_dvd hdvd).sub (Int.ModEq.refl (r1 : Int))
    simpa using this
  have h3 : ((u64_sub r2 r1 % 2 ^ w : Nat) : Int) = (k : Int) := by
    rw [u64_delta_eq, Int.emod_emod_of_dvd _ (pow_dvd_pow (2 : Int) hw)]
    rw [h2.eq]
    exact Int.emod_eq_of_lt (by positivity) (by exact_mod_cast hk)
  exact_mod_cast h3

/-- The hardware table of either build maps `PERF_COUNT_HW_CPU_CYCLES` to the cycle counter,
whatever the counter width of the descriptor. -/
theorem riscv_map_hw_event_cycles (b : Build) (w : Int) :
    riscv_map_hw_event { riscv_base_pmu b with counter_width := w } PERF_COUNT_HW_CPU_CYCLES
      = some RISCV_PMU_CYCLE := by
  cases b <;> rfl

/-- C2: an event initialised with kind CPU_CYCLES, added with the start flag and read twice:
when the cycle register advances by `k < 2 ^ counter_width` ticks between the two reads (the
register wrapping at `m >= counter_width` bits), every step succeeds and the logical
count after the second read minus the one after the first read is `k` (in 64-bit arithmetic,
and as exact numbers when the count does not pass `2 ^ 64`, as for a count that started at 0). -/
theorem cycles_two_reads_delta (b : Build) (w m k : Nat) (irq_ret : Int) (g : pmc_global)
    (cpuc : cpu_hw_events) (event : perf_event) (hw0 hw1 hw2 : Hw) (flags fuel1 fuel2 : Nat)
    (hw63 : w ≤ 63) (hwm : w ≤ m)
    (htype : event.attr.type = PERF_TYPE_HARDWARE)
    (hkind : event.attr.config = PERF_COUNT_HW_CPU_CYCLES)
    (hstart : flags &&& PERF_EF_START ≠ 0)
    (hroom : cpuc.n_events ≠ (riscv_base_pmu b).num_counters)
    (hk : k < 2 ^ w)
    (hadv : read_counter b hw2 RISCV_PMU_CYCLE
      = (read_counter b hw1 RISCV_PMU_CYCLE + k) % 2 ^ m) :
    ∃ g1 ev1 cpuc1 ev2 ev3 ev4,
      riscv_event_init b { riscv_base_pmu b with counter_width := w } irq_ret g event
        = some (0, g1, ev1) ∧
      riscv_pmu_add b { riscv_base_pmu b with counter_width := w } hw0 cpuc ev1 flags
        = some (0, cpuc1, ev2) ∧
      riscv_pmu_read b { riscv_base_pmu b with counter_width := w } hw1 (fuel1 + 1) ev2
        = some ev3 ∧
      riscv_pmu_read b { riscv_base_pmu b with counter_width := w } hw2 (fuel2 + 1) ev3
        = some ev4 ∧
      u64_sub ev4.count ev3.count = k ∧
      (ev3.count + k < 2 ^ 64 → ev4.count = ev3.count + k) ∧
      (event.count = 0 → ev4.count = ev3.count + k) := by
  obtain ⟨g1, hinit⟩ := riscv_event_init_hw_ok b { riscv_base_pmu b with counter_width := w }
    irq_ret g event RISCV_PMU_CYCLE htype (hkind ▸ riscv_map_hw_event_cycles b w)
    (by decide) (by show (-1 : Int) < 0; decide)
  have hadd := riscv_pmu_add_ok b { riscv_base_pmu b with counter_width := w } hw0 cpuc
    { event with destroy := true, hw := { event.hw with config := RISCV_PMU_CYCLE.toNat, idx := -1 } }
    flags 0 hroom rfl (by cases b <;> decide)
  rw [if_pos hstart] at hadd
  refine ⟨g1, _, _, _, _, _, hinit, hadd, riscv_pmu_read_eq _ _ hw1 fuel1 _ w rfl hw63,
    riscv_pmu_read_eq _ _ hw2 fuel2 _ w rfl hw63, ?_⟩
  have hk63 : 2 ^ w ≤ 2 ^ 63 := Nat.pow_le_pow_right (by norm_num) hw63
  have hd2 : u64_sub (read_counter b hw2 RISCV_PMU_CYCLE) (read_counter b hw1 RISCV_PMU_CYCLE)
      % 2 ^ w = k := u64_sub_advance _ _ k w m (by omega) hwm hk hadv
  have hd1 : u64_sub (read_counter b hw1 RISCV_PMU_CYCLE) (read_counter b hw0 RISCV_PMU_CYCLE)
      % 2 ^ w < 2 ^ w := Nat.mod_lt _ (by positivity)
  simp only [Nat.cast_zero, RISCV_PMU_CYCLE] at hd1 hd2 ⊢
  rw [hd2]
  generalize u64_sub (read_counter b hw1 0) (read_counter b hw0 0) % 2 ^ w = d1 at hd1 ⊢
  generalize event.count = c0
  unfold u64_sub U64
  refine ⟨by omega, by omega, ?_⟩
  intro h0
  subst h0
  omega


/-- Witness of C2: base build, width 63, the cycle register at 5 when the event is started,
at 100 at the first read and at 1100 at the second: the count grows by 1000. -/
theorem cycles_two_reads_delta_witness :
    ∃ g1 ev1 cpuc1 ev2 ev3 ev4,
      riscv_event_init .base { riscv_base_pmu .base with counter_width := (63 : Nat) } 0
        pmc_global_init (hw_request 1 PERF_COUNT_HW_CPU_CYCLES) = some (0, g1, ev1) ∧
      riscv_pmu_add .base { riscv_base_pmu .base with counter_width := (63 : Nat) } (hw_cycle 5)
        cpu_hw_events_empty ev1 PERF_EF_START = some (0, cpuc1, ev2) ∧
      riscv_pmu_read .base { riscv_base_pmu .base with counter_width := (63 : Nat) }
        (hw_cycle 100) (0 + 1) ev2 = some ev3 ∧
      riscv_pmu_read .base { riscv_base_pmu .base with counter_width := (63 : Nat) }
        (hw_cycle 1100) (0 + 1) ev3 = some ev4 ∧
      u64_sub ev4.count ev3.count = 1000 ∧
      (ev3.count + 1000 < 2 ^ 64 → ev4.count = ev3.count + 1000) ∧
      ((hw_request 1 PERF_COUNT_HW_CPU_CYCLES).count = 0 → ev4.count = ev3.count + 1000) :=
  cycles_two_reads_delta .base 63 64 1000 0 pmc_global_init cpu_hw_events_empty
    (hw_request 1 PERF_COUNT_HW_CPU_CYCLES) (hw_cycle 5) (hw_cycle 100) (hw_cycle 1100)
    PERF_EF_START 0 0 (by decide) (by decide) rfl rfl (by decide) (by decide) (by decide)
    (by decide)

/-- C3: on the descriptor of either build, `riscv_map_hw_event` returns `-EINVAL` for every
config at or above `max_events` (the length of the hardware-event table), and for every config
below it returns exactly the table entry `hw_events[config]`, which is a non-negative counter
code or the unsupported sentinel `-EOPNOTSUPP`; BUS_CYCLES is in range and yields
`-EOPNOTSUPP`, which differs from `-EINVAL`. -/
theorem riscv_map_hw_event_spec (b : Build) (config : Nat) :
    ((riscv_base_pmu b).max_events = ((riscv_base_pmu b).hw_events.length : Int)) ∧
    ((riscv_base_pmu b).max_events ≤ (config : Int) →
      riscv_map_hw_event (riscv_base_pmu b) config = some (-EINVAL)) ∧
    ((config : Int) < (riscv_base_pmu b).max_events →
      ∃ code, (riscv_base_pmu b).hw_events[config]? = some code ∧
        riscv_map_hw_event (riscv_base_pmu b) config = some code ∧
        (0 ≤ code ∨ code = RISCV_OP_UNSUPP)) ∧
    ((PERF_COUNT_HW_BUS_CYCLES : Int) < (riscv_base_pmu b).max_events ∧
      riscv_map_hw_event (riscv_base_pmu b) PERF_COUNT_HW_BUS_CYCLES = some (-EOPNOTSUPP) ∧
      RISCV_OP_UNSUPP = -EOPNOTSUPP ∧ -EOPNOTSUPP ≠ -EINVAL) := by
  have hmax : (riscv_base_pmu b).max_events = 7 := by cases b <;> rfl
  have hu : int_to_u64 (riscv_base_pmu b).max_events = 7 := by rw [hmax]; rfl
  refine ⟨rfl, ?_, ?_, ?_⟩
  · intro h
    have h7 : 7 ≤ config := by omega
    unfold riscv_map_hw_event
    rw [hu, if_pos h7]
  · intro h
    have h7 : config < 7 := by omega
    have hn : ¬ config ≥ 7 := by omega
    unfold riscv_map_hw_event
    rw [hu, if_neg hn]
    interval_cases config <;> cases b <;> exact ⟨_, rfl, rfl, by decide⟩
  · cases b <;> decide

/-- Witness of C3 (out-of-range side): kind 7 on the base build is rejected with `-EINVAL`. -/
theorem riscv_map_hw_event_spec_witness :
    (riscv_base_pmu .base).max_events ≤ ((7 : Nat) : Int) ∧
    riscv_map_hw_event (riscv_base_pmu .base) 7 = some (-EINVAL) :=
  ⟨by decide, (riscv_map_hw_event_spec .base 7).2.1 (by decide)⟩

/-- C4: for every hardware-event kind in range of the table of either build's descriptor,
`riscv_map_hw_event` returns the unsupported sentinel or a counter code `c` with
`0 <= c < num_counters` (2 on base, 16 on Ariane), which is also an index of the per-CPU slot
array (`RISCV_MAX_COUNTERS` slots); so `riscv_pmu_add` of an event carrying that code on a
table that is not full completes, and its write goes to slot `c` of the array. -/
theorem riscv_map_hw_event_in_bounds (b : Build) (config : Nat)
    (hin : (config : Int) < (riscv_base_pmu b).max_events) :
    (riscv_base_pmu .base).num_counters = 2 ∧ (riscv_base_pmu .ariane).num_counters = 16 ∧
    ∃ code, riscv_map_hw_event (riscv_base_pmu b) config = some code ∧
      (code = RISCV_OP_UNSUPP ∨
        (0 ≤ code ∧ code < (riscv_base_pmu b).num_counters ∧ code < RISCV_MAX_COUNTERS b ∧
          ∀ (hw : Hw) (cpuc : cpu_hw_events) (event : perf_event) (flags : Nat),
            event.hw.config = code.toNat →
            cpuc.n_events ≠ (riscv_base_pmu b).num_counters →
            ∃ cpuc1 event1,
              riscv_pmu_add b (riscv_base_pmu b) hw cpuc event flags = some (0, cpuc1, event1) ∧
              event1.hw.idx = code ∧
              cpuc1.events code.toNat = some event.id ∧
              ∀ i, i ≠ code.toNat → cpuc1.events i = cpuc.events i)) := by
  have hmax : (riscv_base_pmu b).max_events = 7 := by cases b <;> rfl
  have h7 : config < 7 := by omega
  have hkey : ∃ code, riscv_map_hw_event (riscv_base_pmu b) config = some code ∧
      (code = RISCV_OP_UNSUPP ∨
        (0 ≤ code ∧ code < (riscv_base_pmu b).num_counters ∧ code < RISCV_MAX_COUNTERS b)) := by
    interval_cases config <;> cases b <;> exact ⟨_, rfl, by decide⟩
  obtain ⟨code, hmap, hcode⟩ := hkey
  refine ⟨rfl, rfl, code, hmap, ?_⟩
  rcases hcode with hu | ⟨h0, hn, hm⟩
  · exact Or.inl hu
  · refine Or.inr ⟨h0, hn, hm, ?_⟩
    intro hw cpuc event flags hcfg hroom
    have hcast : ((code.toNat : Nat) : Int) = code := Int.toNat_of_nonneg h0
    have hadd := riscv_pmu_add_ok b (riscv_base_pmu b) hw cpuc event flags code.toNat hroom hcfg
      (by rw [hcast]; exact hm)
    refine ⟨_, _, hadd, ?_, ?_, ?_⟩
    · split_ifs <;> exact hcast
    · simp
    · intro i hi
      simp [hi]

/-- Witness of C4: BRANCH_MISSES on Ariane resolves to code 13, below 16. -/
theorem riscv_map_hw_event_in_bounds_witness :
    riscv_map_hw_event (riscv_base_pmu .ariane) PERF_COUNT_HW_BRANCH_MISSES
      = some RISCV_OP_MIS_PREDICT ∧
    ∃ code, riscv_map_hw_event (riscv_base_pmu .ariane) PERF_COUNT_HW_BRANCH_MISSES = some code ∧
      (code = RISCV_OP_UNSUPP ∨
        (0 ≤ code ∧ code < (riscv_base_pmu .ariane).num_counters ∧
          code < RISCV_MAX_COUNTERS .ariane ∧
          ∀ (hw : Hw) (cpuc : cpu_hw_events) (event : perf_event) (flags : Nat),
            event.hw.config = code.toNat →
            cpuc.n_events ≠ (riscv_base_pmu .ariane).num_counters →
            ∃ cpuc1 event1,
              riscv_pmu_add .ariane (riscv_base_pmu .ariane) hw cpuc event flags
                = some (0, cpuc1, event1) ∧
              event1.hw.idx = code ∧
              cpuc1.events code.toNat = some event.id ∧
              ∀ i, i ≠ code.toNat → cpuc1.events i = cpuc.events i)) :=
  ⟨by decide,
    (riscv_map_hw_event_in_bounds .ariane PERF_COUNT_HW_BRANCH_MISSES (by decide)).2.2⟩

/-- On the base build `riscv_map_cache_decode` reports `-ENOENT` without decoding, so
`riscv_map_cache_event` returns `-ENOENT` for every descriptor and every config. -/
theorem riscv_map_cache_event_base (pmu : riscv_pmu) (config : Nat) :
    riscv_map_cache_event .base pmu config = some (-ENOENT) := by
  unfold riscv_map_cache_event riscv_map_cache_decode
  cases pmu.cache_events <;> simp [ENOENT]

/-- C5, counterexample: on the base build, config `0xFF` has level 255, out of range, and
`riscv_map_cache_event` returns `-ENOENT`, not `-EINVAL`. -/
theorem riscv_map_cache_event_out_of_range_base :
    (0xFF &&& 0xFF ≥ PERF_COUNT_HW_CACHE_MAX) ∧
    riscv_map_cache_event .base (riscv_base_pmu .base) 0xFF = some (-ENOENT) ∧
    riscv_map_cache_event .base (riscv_base_pmu .base) 0xFF ≠ some (-EINVAL) := by
  decide

/-- C5, amended: on the build that decodes cache configs (Ariane), for every descriptor that
has a cache-event table and every config in which at least one decoded field (level = bits
0-7, operation = bits 8-15, result = bits 16-23) is at or above its enumeration maximum,
`riscv_map_cache_event` returns `-EINVAL`, whatever the other two fields; on the base build it
returns `-ENOENT` for every config. -/
theorem riscv_map_cache_event_out_of_range (pmu : riscv_pmu) (tbl : List (List (List Int)))
    (config : Nat) (htbl : pmu.cache_events = some tbl)
    (hout : config &&& 0xFF ≥ PERF_COUNT_HW_CACHE_MAX ∨
      (config >>> 8) &&& 0xFF ≥ PERF_COUNT_HW_CACHE_OP_MAX ∨
      (config >>> 16) &&& 0xFF ≥ PERF_COUNT_HW_CACHE_RESULT_MAX) :
    riscv_map_cache_event .ariane pmu config = some (-EINVAL) ∧
    riscv_map_cache_event .base pmu config = some (-ENOENT) := by
  refine ⟨?_, riscv_map_cache_event_base pmu config⟩
  unfold riscv_map_cache_event riscv_map_cache_decode
  simp only [htbl, ne_eq, not_true_eq_false, if_false]
  rw [if_pos hout]

/-- Witness of the amended C5: level 1, operation 3 (out of range), result 0 on Ariane. -/
theorem riscv_map_cache_event_out_of_range_witness :
    ((0x301 >>> 8) &&& 0xFF ≥ PERF_COUNT_HW_CACHE_OP_MAX) ∧
    riscv_map_cache_event .ariane (riscv_base_pmu .ariane) 0x301 = some (-EINVAL) :=
  ⟨by decide,
    (riscv_map_cache_event_out_of_range (riscv_base_pmu .ariane) (riscv_cache_event_map .ariane)
      0x301 rfl (Or.inr (Or.inl (by decide)))).1⟩

/-- C6, counterexample: on Ariane, config 2 decodes to level LL, operation READ, result ACCESS,
all in range; the table entry is the unsupported sentinel, and `riscv_map_cache_event` returns
`-EINVAL`, not `-EOPNOTSUPP`. -/
theorem riscv_map_cache_event_unsupp_einval :
    (2 &&& 0xFF < PERF_COUNT_HW_CACHE_MAX ∧ (2 >>> 8) &&& 0xFF < PERF_COUNT_HW_CACHE_OP_MAX ∧
      (2 >>> 16) &&& 0xFF < PERF_COUNT_HW_CACHE_RESULT_MAX) ∧
    (((riscv_cache_event_map .ariane)[2]?.bind (fun l => l[0]?)).bind (fun r => r[0]?)
      = some RISCV_OP_UNSUPP) ∧
    riscv_map_cache_event .ariane (riscv_base_pmu .ariane) 2 = some (-EINVAL) ∧
    riscv_map_cache_event .ariane (riscv_base_pmu .ariane) 2 ≠ some (-EOPNOTSUPP) := by
  decide

/-- C6, amended: on the Ariane build, for every descriptor with a cache-event table and every
config whose three decoded fields are all in range and whose table entry is the unsupported
sentinel, `riscv_map_cache_event` returns `-EINVAL`, the same value it returns for an
out-of-range field (the values `-EOPNOTSUPP` and `-EINVAL` differ, but the function does not
return the former here). -/
theorem riscv_map_cache_event_unsupp (pmu : riscv_pmu) (tbl : List (List (List Int)))
    (level : List (List Int)) (row : List Int) (config : Nat)
    (htbl : pmu.cache_events = some tbl)
    (ht : config &&& 0xFF < PERF_COUNT_HW_CACHE_MAX)
    (ho : (config >>> 8) &&& 0xFF < PERF_COUNT_HW_CACHE_OP_MAX)
    (hr : (config >>> 16) &&& 0xFF < PERF_COUNT_HW_CACHE_RESULT_MAX)
    (hlevel : tbl[config &&& 0xFF]? = some level)
    (hrow : level[(config >>> 8) &&& 0xFF]? = some row)
    (hentry : row[(config >>> 16) &&& 0xFF]? = some RISCV_OP_UNSUPP) :
    riscv_map_cache_event .ariane pmu config = some (-EINVAL) ∧ -EOPNOTSUPP ≠ -EINVAL := by
  refine ⟨?_, by decide⟩
  have hin : ¬ (config &&& 0xFF ≥ PERF_COUNT_HW_CACHE_MAX ∨
      (config >>> 8) &&& 0xFF ≥ PERF_COUNT_HW_CACHE_OP_MAX ∨
      (config >>> 16) &&& 0xFF ≥ PERF_COUNT_HW_CACHE_RESULT_MAX) := by omega
  unfold riscv_map_cache_event riscv_map_cache_decode
  simp only [htbl, ne_eq, not_true_eq_false, if_false]
  rw [if_neg hin]
  simp only [hlevel, hrow, hentry, if_true]

/-- Witness of the amended C6: config 2 (LL, READ, ACCESS) on the Ariane descriptor. -/
theorem riscv_map_cache_event_unsupp_witness :
    riscv_map_cache_event .ariane (riscv_base_pmu .ariane) 2 = some (-EINVAL) ∧
    -EOPNOTSUPP ≠ -EINVAL :=
  riscv_map_cache_event_unsupp (riscv_base_pmu .ariane) (riscv_cache_event_map .ariane)
    cache_level_unsupp [RISCV_OP_UNSUPP, RISCV_OP_UNSUPP] 2 rfl (by decide) (by decide)
    (by decide) (by decide) (by decide) (by decide)

/-- C7, the code at the failing input: on the Ariane build with the cache-event table absent,
`riscv_map_cache_event` returns 0 for every config (the decode result, not `-ENOENT`), and
`riscv_event_init` accepts it as the counter code of the cycle counter. -/
theorem riscv_map_cache_event_no_table_ariane :
    pmu_ariane_no_cache.cache_events = none ∧
    (∀ config : Nat, riscv_map_cache_event .ariane pmu_ariane_no_cache config = some 0) ∧
    (riscv_event_init .ariane pmu_ariane_no_cache 0 pmc_global_init
        (typed_request 1 PERF_TYPE_HW_CACHE 0)).map
      (fun r => (r.1, r.2.2.hw.config, r.2.2.hw.idx, r.2.1.riscv_active_events))
      = some (0, RISCV_PMU_CYCLE.toNat, -1, 1) := by
  refine ⟨rfl, fun config => ?_, by decide⟩
  simp [riscv_map_cache_event, riscv_map_cache_decode, pmu_ariane_no_cache]

/-- C8, the code at the failing input: on the base descriptor with no active event, a request
of type RAW is rejected with `-EOPNOTSUPP` and a request of an unknown type (7) with `-ENOENT`,
and in both cases the active-event counter is left at 1 and the hardware stays reserved; the
sibling path for an unmappable hardware kind (BUS_CYCLES, `-EOPNOTSUPP`) puts the counter back
to 0 and releases the hardware. -/
theorem riscv_event_init_raw_counter :
    (riscv_event_init .base (riscv_base_pmu .base) 0 pmc_global_init
        (typed_request 1 PERF_TYPE_RAW 0)).map (fun r => (r.1, r.2.1))
      = some (-EOPNOTSUPP, { riscv_active_events := 1, log := [pmc_op.reserve] }) ∧
    (riscv_event_init .base (riscv_base_pmu .base) 0 pmc_global_init
        (typed_request 1 7 0)).map (fun r => (r.1, r.2.1))
      = some (-ENOENT, { riscv_active_events := 1, log := [pmc_op.reserve] }) ∧
    (riscv_event_init .base (riscv_base_pmu .base) 0 pmc_global_init
        (typed_request 1 PERF_TYPE_HARDWARE PERF_COUNT_HW_BUS_CYCLES)).map (fun r => (r.1, r.2.1))
      = some (-EOPNOTSUPP,
          { riscv_active_events := 0, log := [pmc_op.reserve, pmc_op.release] }) := by
  decide

/-- The rollback that `riscv_event_init` does perform: whenever a request of type HARDWARE or
HW_CACHE is rejected, the active-event counter (a value of a 32-bit `int`) ends at the value it
had before the call. -/
theorem riscv_event_init_mapped_rollback (b : Build) (pmu : riscv_pmu) (irq_ret : Int)
    (g g1 : pmc_global) (event event1 : perf_event) (ret : Int)
    (hg1 : -2 ^ 31 ≤ g.riscv_active_events) (hg2 : g.riscv_active_events < 2 ^ 31)
    (htype : event.attr.type = PERF_TYPE_HARDWARE ∨ event.attr.type = PERF_TYPE_HW_CACHE)
    (hinit : riscv_event_init b pmu irq_ret g event = some (ret, g1, event1)) (hret : ret < 0) :
    g1.riscv_active_events = g.riscv_active_events := by
  have hback := (atomic_counter_tests g.riscv_active_events hg1 hg2).2.2
  have hrel : ∀ g0 : pmc_global, (release_pmc_hardware pmu g0).riscv_active_events
      = g0.riscv_active_events := by
    intro g0
    unfold release_pmc_hardware
    split_ifs <;> rfl
  have hdes : ∀ g0 : pmc_global, (riscv_event_destroy pmu g0).riscv_active_events
      = atomic_dec_return g0.riscv_active_events := by
    intro g0
    simp only [riscv_event_destroy]
    split_ifs
    · rw [hrel]
    · rfl
  have hres : ∀ g0 : pmc_global, (reserve_pmc_hardware pmu irq_ret g0).2.riscv_active_events
      = g0.riscv_active_events := by
    intro g0
    unfold reserve_pmc_hardware
    split_ifs <;> rfl
  have hmap : ∀ g0 : pmc_global, riscv_event_init_map b pmu g0 event = some (ret, g1, event1) →
      g1.riscv_active_events = atomic_dec_return g0.riscv_active_events := by
    intro g0 h
    unfold riscv_event_init_map at h
    have h34 : PERF_TYPE_HW_CACHE ≠ PERF_TYPE_HARDWARE := by decide
    rcases htype with ht | ht
    · simp only [ht, if_true] at h
      cases hm : riscv_map_hw_event pmu event.attr.config with
      | none => simp [hm] at h
      | some code =>
        simp only [hm, Option.map_some'] at h
        split_ifs at h with hneg
        · simp only [Option.some.injEq, Prod.mk.injEq] at h
          rw [← h.2.1, hdes]
        · simp only [Option.some.injEq, Prod.mk.injEq] at h
          omega
    · simp only [ht, h34, if_false, if_true] at h
      cases hm : riscv_map_cache_event b pmu event.attr.config with
      | none => simp [hm] at h
      | some code =>
        simp only [hm, Option.map_some'] at h
        split_ifs at h with hneg
        · simp only [Option.some.injEq, Prod.mk.injEq] at h
          rw [← h.2.1, hdes]
        · simp only [Option.some.injEq, Prod.mk.injEq] at h
          omega
  unfold riscv_event_init at hinit
  simp only at hinit
  split_ifs at hinit with h1 h2
  · simp only [Option.some.injEq, Prod.mk.injEq] at hinit
    rw [← hinit.2.1]
    simp only [hres]
    exact hback
  · rw [hmap _ hinit, hres]
    exact hback
  · rw [hmap _ hinit]
    exact hback

/-- `riscv_pmu_stop` completes when the counter width is valid and the retry loop of the read
has fuel; it changes neither the address, nor the resolved code, nor the assigned index. -/
theorem riscv_pmu_stop_ok (b : Build) (pmu : riscv_pmu) (hw : Hw) (fuel : Nat)
    (event : perf_event) (flags w : Nat) (hwidth : pmu.counter_width = (w : Int))
    (hw63 : w ≤ 63) :
    ∃ event1, riscv_pmu_stop b pmu hw (fuel + 1) event flags = some event1 ∧
      event1.id = event.id ∧ event1.hw.config = event.hw.config ∧
      event1.hw.idx = event.hw.idx := by
  unfold riscv_pmu_stop
  simp only
  split_ifs
  · rw [riscv_pmu_read_eq b pmu hw fuel _ w hwidth hw63]
    exact ⟨_, rfl, rfl, rfl, rfl⟩
  · exact ⟨_, rfl, rfl, rfl, rfl⟩

/-- `riscv_pmu_del` of an event whose assigned index `c` is an index of the slot array: slot
`c` is emptied and the count of events drops by one. -/
theorem riscv_pmu_del_ok (b : Build) (pmu : riscv_pmu) (hw : Hw) (fuel : Nat)
    (cpuc : cpu_hw_events) (event : perf_event) (flags w c : Nat)
    (hwidth : pmu.counter_width = (w : Int)) (hw63 : w ≤ 63)
    (hidx : event.hw.idx = (c : Int)) (hc : (c : Int) < RISCV_MAX_COUNTERS b) :
    ∃ event1, riscv_pmu_del b pmu hw (fuel + 1) cpuc event flags
      = some ({ n_events := cpuc.n_events - 1
                events := fun i => if i = c then none else cpuc.events i }, event1) ∧
      event1.id = event.id ∧ event1.hw.config = event.hw.config ∧
      event1.hw.idx = event.hw.idx := by
  obtain ⟨event1, hstop, h1, h2, h3⟩ :=
    riscv_pmu_stop_ok b pmu hw fuel event PERF_EF_UPDATE w hwidth hw63
  have hb : (0 : Int) ≤ (c : Int) ∧ (c : Int) < RISCV_MAX_COUNTERS b := ⟨by omega, hc⟩
  refine ⟨event1, ?_, h1, h2, h3⟩
  unfold riscv_pmu_del
  simp only [hidx, events_store, hb, and_self, if_true, Int.toNat_ofNat, hstop]

/-- An add on a table that is not full returns 0 whenever it completes. -/
theorem riscv_pmu_add_ret_zero (b : Build) (pmu : riscv_pmu) (hw : Hw) (cpuc : cpu_hw_events)
    (event : perf_event) (flags : Nat) (r : Int × cpu_hw_events × perf_event)
    (hroom : cpuc.n_events ≠ pmu.num_counters)
    (hadd : riscv_pmu_add b pmu hw cpuc event flags = some r) : r.1 = 0 := by
  unfold riscv_pmu_add at hadd
  rw [if_neg hroom] at hadd
  simp only at hadd
  cases hs : events_store b cpuc (u64_to_int event.hw.config) (some event.id) with
  | none =>
    rw [hs] at hadd
    exact Option.noConfusion hadd
  | some cpuc2 =>
    rw [hs] at hadd
    simp only at hadd
    by_cases hst : flags &&& PERF_EF_START ≠ 0
    · rw [if_pos hst] at hadd
      simp only [Option.some.injEq] at hadd
      rw [← hadd]
    · rw [if_neg hst] at hadd
      simp only [Option.some.injEq] at hadd
      rw [← hadd]

/-- C10: whenever `riscv_pmu_add` returns `-ENOSPC`, nothing has changed: the slot table
(`n_events` and every slot) and the event handle (assigned index, state flags, baseline,
logical count) are the ones before the call; and the table was full. -/
theorem riscv_pmu_add_nospace_unchanged (b : Build) (pmu : riscv_pmu) (hw : Hw)
    (cpuc cpuc1 : cpu_hw_events) (event event1 : perf_event) (flags : Nat) (ret : Int)
    (hadd : riscv_pmu_add b pmu hw cpuc event flags = some (ret, cpuc1, event1))
    (hret : ret = -ENOSPC) :
    cpuc1 = cpuc ∧ event1 = event ∧ cpuc.n_events = pmu.num_counters := by
  by_cases hfull : cpuc.n_events = pmu.num_counters
  · unfold riscv_pmu_add at hadd
    rw [if_pos hfull] at hadd
    simp only [Option.some.injEq, Prod.mk.injEq] at hadd
    exact ⟨hadd.2.1.symm, hadd.2.2.symm, hfull⟩
  · exfalso
    have h0 : ret = 0 := riscv_pmu_add_ret_zero b pmu hw cpuc event flags _ hfull hadd
    rw [hret] at h0
    exact absurd h0 (by decide)

/-- Witness of C10: an add on the full table of the base build (both counters in use). -/
theorem riscv_pmu_add_nospace_unchanged_witness :
    riscv_pmu_add .base (riscv_base_pmu .base) (hw_cycle 0) cpuc_full (resolved_event 3 0)
        PERF_EF_START = some (-ENOSPC, cpuc_full, resolved_event 3 0) ∧
    (cpuc_full = cpuc_full ∧ resolved_event 3 0 = resolved_event 3 0 ∧
      cpuc_full.n_events = (riscv_base_pmu .base).num_counters) :=
  ⟨rfl, riscv_pmu_add_nospace_unchanged .base (riscv_base_pmu .base) (hw_cycle 0) cpuc_full
    cpuc_full (resolved_event 3 0) (resolved_event 3 0) PERF_EF_START (-ENOSPC) rfl rfl⟩

/-- C9, counterexample: base descriptor (two counters), events at addresses 1 (cycles, code 0),
2 and 3 (both instret, code 1). From the empty table the adds of 1 and 2 succeed, the add of 3
fails with `-ENOSPC`, the del of event 1 frees slot 0, and the following add of event 3
succeeds; but it occupies slot 1, the slot of its own code, and slot 0, the one the del freed,
stays empty. -/
theorem riscv_pmu_add_after_del_other_slot :
    ∃ t1 a1 t2 a2 t3 d1 t4 a4,
      riscv_pmu_add .base (riscv_base_pmu .base) (hw_cycle 0) cpu_hw_events_empty
        (resolved_event 1 0) PERF_EF_START = some (0, t1, a1) ∧
      riscv_pmu_add .base (riscv_base_pmu .base) (hw_cycle 0) t1
        (resolved_event 2 1) PERF_EF_START = some (0, t2, a2) ∧
      riscv_pmu_add .base (riscv_base_pmu .base) (hw_cycle 0) t2
        (resolved_event 3 1) PERF_EF_START = some (-ENOSPC, t2, resolved_event 3 1) ∧
      riscv_pmu_del .base (riscv_base_pmu .base) (hw_cycle 0) 1 t2 a1 0 = some (t3, d1) ∧
      a1.hw.idx = 0 ∧ t2.events 0 = some 1 ∧ t3.events 0 = none ∧ t3.n_events = 1 ∧
      riscv_pmu_add .base (riscv_base_pmu .base) (hw_cycle 0) t3
        (resolved_event 3 1) PERF_EF_START = some (0, t4, a4) ∧
      a4.hw.idx = 1 ∧ t4.events 0 = none ∧ t4.events 1 = some 3 ∧ t4.n_events = 2 :=
  ⟨_, _, _, _, _, _, _, _, rfl, rfl, rfl, rfl, rfl, rfl, rfl, rfl, rfl, rfl, rfl, rfl, rfl⟩

/-- C9, amended: `riscv_pmu_add` fails with `-ENOSPC` exactly when `n_events` equals
`num_counters`. On a descriptor with `num_counters = 2` (valid counter width), for events whose
resolved codes are indices of the slot array: from the empty table the first two adds succeed
and a third add fails with `-ENOSPC`; after one del of either added event a subsequent add
succeeds and occupies the slot of its own resolved code, which is the slot the del freed when
its code is the code of the deleted event. -/
theorem riscv_pmu_add_capacity (b : Build) (pmu : riscv_pmu) (w : Nat)
    (hw1 hw2 hw3 hw4 hw5 : Hw) (e1 e2 e3 e4 : perf_event) (f1 f2 f3 f4 fd fuel : Nat)
    (hnum : pmu.num_counters = 2) (hwidth : pmu.counter_width = (w : Int)) (hw63 : w ≤ 63)
    (hc1 : (e1.hw.config : Int) < RISCV_MAX_COUNTERS b)
    (hc2 : (e2.hw.config : Int) < RISCV_MAX_COUNTERS b)
    (hc4 : (e4.hw.config : Int) < RISCV_MAX_COUNTERS b) :
    (∀ (hw : Hw) (cpuc : cpu_hw_events) (event : perf_event) (flags : Nat)
        (r : Int × cpu_hw_events × perf_event),
        riscv_pmu_add b pmu hw cpuc event flags = some r →
        (r.1 = -ENOSPC ↔ cpuc.n_events = pmu.num_counters)) ∧
    (∀ (hw : Hw) (cpuc : cpu_hw_events) (event : perf_event) (flags : Nat),
        cpuc.n_events = pmu.num_counters →
        riscv_pmu_add b pmu hw cpuc event flags = some (-ENOSPC, cpuc, event)) ∧
    ∃ t1 a1 t2 a2,
      riscv_pmu_add b pmu hw1 cpu_hw_events_empty e1 f1 = some (0, t1, a1) ∧
      riscv_pmu_add b pmu hw2 t1 e2 f2 = some (0, t2, a2) ∧
      riscv_pmu_add b pmu hw3 t2 e3 f3 = some (-ENOSPC, t2, e3) ∧
      ∀ ad, ad = a1 ∨ ad = a2 →
        ∃ t3 d1 t4 a4,
          riscv_pmu_del b pmu hw4 (fuel + 1) t2 ad fd = some (t3, d1) ∧
          t3.events ad.hw.idx.toNat = none ∧
          riscv_pmu_add b pmu hw5 t3 e4 f4 = some (0, t4, a4) ∧
          a4.hw.idx = (e4.hw.config : Int) ∧
          t4.events e4.hw.config = some e4.id ∧
          (e4.hw.config = ad.hw.config → a4.hw.idx = ad.hw.idx) := by
  have hiff : ∀ (hw : Hw) (cpuc : cpu_hw_events) (event : perf_event) (flags : Nat)
      (r : Int × cpu_hw_events × perf_event),
      riscv_pmu_add b pmu hw cpuc event flags = some r →
      (r.1 = -ENOSPC ↔ cpuc.n_events = pmu.num_counters) := by
    intro hw cpuc event flags r hr
    constructor
    · intro h
      by_contra hroom
      have h0 := riscv_pmu_add_ret_zero b pmu hw cpuc event flags r hroom hr
      rw [h] at h0
      exact absurd h0 (by decide)
    · intro h
      unfold riscv_pmu_add at hr
      rw [if_pos h] at hr
      simp only [Option.some.injEq] at hr
      rw [← hr]
  have hfull : ∀ (hw : Hw) (cpuc : cpu_hw_events) (event : perf_event) (flags : Nat),
      cpuc.n_events = pmu.num_counters →
      riscv_pmu_add b pmu hw cpuc event flags = some (-ENOSPC, cpuc, event) := by
    intro hw cpuc event flags h
    unfold riscv_pmu_add
    rw [if_pos h]
  refine ⟨hiff, hfull, ?_⟩
  have hadd1 := riscv_pmu_add_ok b pmu hw1 cpu_hw_events_empty e1 f1 e1.hw.config
    (by rw [hnum]; decide) rfl hc1
  have hadd2 := riscv_pmu_add_ok b pmu hw2
    { n_events := cpu_hw_events_empty.n_events + 1
      events := fun i => if i = e1.hw.config then some e1.id else cpu_hw_events_empty.events i }
    e2 f2 e2.hw.config (by rw [hnum]; show (0 : Int) + 1 ≠ 2; decide) rfl hc2
  refine ⟨_, _, _, _, hadd1, hadd2, hfull _ _ _ _ (by rw [hnum]; rfl), ?_⟩
  intro ad had
  have hidx : ∃ c : Nat, ad.hw.idx = (c : Int) ∧ ad.hw.config = c ∧
      (c : Int) < RISCV_MAX_COUNTERS b := by
    rcases had with h | h
    · refine ⟨e1.hw.config, ?_, ?_, hc1⟩ <;> rw [h] <;> split_ifs <;> rfl
    · refine ⟨e2.hw.config, ?_, ?_, hc2⟩ <;> rw [h] <;> split_ifs <;> rfl
  obtain ⟨c, hci, hcc, hcb⟩ := hidx
  obtain ⟨d1, hdel, -, -, -⟩ :=
    riscv_pmu_del_ok b pmu hw4 fuel _ ad fd w c hwidth hw63 hci hcb
  have hadd4 := riscv_pmu_add_ok b pmu hw5
    { n_events := cpu_hw_events_empty.n_events + 1 + 1 - 1
      events := fun i => if i = c then none else
        if i = e2.hw.config then some e2.id else
        if i = e1.hw.config then some e1.id else cpu_hw_events_empty.events i }
    e4 f4 e4.hw.config (by rw [hnum]; show (0 : Int) + 1 + 1 - 1 ≠ 2; decide) rfl hc4
  refine ⟨_, d1, _, _, hdel, ?_, hadd4, ?_, ?_, ?_⟩
  · rw [hci]
    simp
  · split_ifs <;> rfl
  · simp
  · intro h
    rw [hci, ← hcc, ← h]
    split_ifs <;> rfl

/-- Witness of the amended C9: base descriptor, events with codes 0, 1, 1 and 1. -/
theorem riscv_pmu_add_capacity_witness :
    ∃ t1 a1 t2 a2,
      riscv_pmu_add .base (riscv_base_pmu .base) (hw_cycle 0) cpu_hw_events_empty
        (resolved_event 1 0) 0 = some (0, t1, a1) ∧
      riscv_pmu_add .base (riscv_base_pmu .base) (hw_cycle 0) t1 (resolved_event 2 1) 0
        = some (0, t2, a2) ∧
      riscv_pmu_add .base (riscv_base_pmu .base) (hw_cycle 0) t2 (resolved_event 3 1) 0
        = some (-ENOSPC, t2, resolved_event 3 1) ∧
      ∀ ad, ad = a1 ∨ ad = a2 →
        ∃ t3 d1 t4 a4,
          riscv_pmu_del .base (riscv_base_pmu .base) (hw_cycle 0) (0 + 1) t2 ad 0
            = some (t3, d1) ∧
          t3.events ad.hw.idx.toNat = none ∧
          riscv_pmu_add .base (riscv_base_pmu .base) (hw_cycle 0) t3 (resolved_event 4 1) 0
            = some (0, t4, a4) ∧
          a4.hw.idx = ((resolved_event 4 1).hw.config : Int) ∧
          t4.events (resolved_event 4 1).hw.config = some (resolved_event 4 1).id ∧
          ((resolved_event 4 1).hw.config = ad.hw.config → a4.hw.idx = ad.hw.idx) :=
  (riscv_pmu_add_capacity .base (riscv_base_pmu .base) 63 (hw_cycle 0) (hw_cycle 0) (hw_cycle 0)
    (hw_cycle 0) (hw_cycle 0) (resolved_event 1 0) (resolved_event 2 1) (resolved_event 3 1)
    (resolved_event 4 1) 0 0 0 0 0 0 rfl rfl (by decide) (by decide) (by decide)
    (by decide)).2.2

/-- `riscv_pmu_start` changes neither the address, nor the resolved code, nor the assigned
index, nor the logical count of an event. -/
theorem riscv_pmu_start_fields (b : Build) (hw : Hw) (event : perf_event) (flags : Nat) :
    (riscv_pmu_start b hw event flags).id = event.id ∧
    (riscv_pmu_start b hw event flags).hw.config = event.hw.config ∧
    (riscv_pmu_start b hw event flags).hw.idx = event.hw.idx ∧
    (riscv_pmu_start b hw event flags).count = event.count := by
  unfold riscv_pmu_start
  split_ifs <;> exact ⟨rfl, rfl, rfl, rfl⟩

/-- What a completed `riscv_pmu_add` did: either the table was full and nothing changed, or
the index taken from the resolved code is inside the slot array, that slot now records the
event, and `n_events` grew by one. -/
theorem riscv_pmu_add_inv (b : Build) (pmu : riscv_pmu) (hw : Hw) (cpuc c1 : cpu_hw_events)
    (e e1 : perf_event) (flags : Nat) (ret : Int)
    (hadd : riscv_pmu_add b pmu hw cpuc e flags = some (ret, c1, e1)) :
    (ret = -ENOSPC ∧ cpuc.n_events = pmu.num_counters ∧ c1 = cpuc ∧ e1 = e) ∨
    (ret = 0 ∧ cpuc.n_events ≠ pmu.num_counters ∧
      0 ≤ u64_to_int e.hw.config ∧ u64_to_int e.hw.config < RISCV_MAX_COUNTERS b ∧
      c1 = { n_events := cpuc.n_events + 1
             events := fun i =>
               if i = (u64_to_int e.hw.config).toNat then some e.id else cpuc.events i } ∧
      e1.id = e.id ∧ e1.hw.config = e.hw.config ∧ e1.hw.idx = u64_to_int e.hw.config) := by
  unfold riscv_pmu_add at hadd
  by_cases hfull : cpuc.n_events = pmu.num_counters
  · rw [if_pos hfull] at hadd
    simp only [Option.some.injEq, Prod.mk.injEq] at hadd
    exact Or.inl ⟨hadd.1.symm, hfull, hadd.2.1.symm, hadd.2.2.symm⟩
  · right
    rw [if_neg hfull] at hadd
    simp only [events_store] at hadd
    by_cases hb : 0 ≤ u64_to_int e.hw.config ∧ u64_to_int e.hw.config < RISCV_MAX_COUNTERS b
    · rw [if_pos hb] at hadd
      simp only at hadd
      by_cases hst : flags &&& PERF_EF_START ≠ 0
      · rw [if_pos hst] at hadd
        simp only [Option.some.injEq, Prod.mk.injEq] at hadd
        obtain ⟨h1, h2, h3⟩ := hadd
        have hf := riscv_pmu_start_fields b hw
          { e with hw := { e.hw with
              idx := u64_to_int e.hw.config, state := PERF_HES_UPTODATE ||| PERF_HES_STOPPED } }
          PERF_EF_RELOAD
        rw [h3] at hf
        exact ⟨h1.symm, hfull, hb.1, hb.2, h2.symm, hf.1, hf.2.1, hf.2.2.1⟩
      · rw [if_neg hst] at hadd
        simp only [Option.some.injEq, Prod.mk.injEq] at hadd
        obtain ⟨h1, h2, h3⟩ := hadd
        exact ⟨h1.symm, hfull, hb.1, hb.2, h2.symm, by rw [← h3], by rw [← h3], by rw [← h3]⟩
    · rw [if_neg hb] at hadd
      exact Option.noConfusion hadd

/-- What a completed `riscv_pmu_del` did: the assigned index is inside the slot array, that
slot is now empty, and `n_events` dropped by one. -/
theorem riscv_pmu_del_inv (b : Build) (pmu : riscv_pmu) (hw : Hw) (fuel : Nat)
    (cpuc c1 : cpu_hw_events) (e e1 : perf_event) (flags : Nat)
    (hdel : riscv_pmu_del b pmu hw fuel cpuc e flags = some (c1, e1)) :
    0 ≤ e.hw.idx ∧ e.hw.idx < RISCV_MAX_COUNTERS b ∧
    c1 = { n_events := cpuc.n_events - 1
           events := fun i => if i = e.hw.idx.toNat then none else cpuc.events i } := by
  unfold riscv_pmu_del at hdel
  simp only [events_store] at hdel
  by_cases hb : 0 ≤ e.hw.idx ∧ e.hw.idx < RISCV_MAX_COUNTERS b
  · rw [if_pos hb] at hdel
    simp only at hdel
    cases hs : riscv_pmu_stop b pmu hw fuel e PERF_EF_UPDATE with
    | none =>
      rw [hs] at hdel
      exact Option.noConfusion hdel
    | some e2 =>
      rw [hs] at hdel
      simp only [Option.some.injEq, Prod.mk.injEq] at hdel
      exact ⟨hb.1, hb.2, hdel.1.symm⟩
  · rw [if_neg hb] at hdel
    exact Option.noConfusion hdel

/-- In every state reached by adds and dels that obey the lifecycle, `n_events` is the number
of events that are added and not yet deleted, and it does not exceed `num_counters` (when that
is not negative). -/
theorem slot_reach_n_events (b : Build) (pmu : riscv_pmu) (fuel : Nat) (excl : Bool)
    (s : slot_state) (hs : slot_reach b pmu fuel excl s) :
    s.cpuc.n_events = (s.live.length : Int) ∧
    (0 ≤ pmu.num_counters → s.cpuc.n_events ≤ pmu.num_counters) := by
  induction hs with
  | empty => exact ⟨rfl, fun h => h⟩
  | add_ok s hw e flags c1 e1 _ _ hadd ih =>
    rcases riscv_pmu_add_inv b pmu hw s.cpuc c1 e e1 flags 0 hadd with h | h
    · exact absurd h.1 (by decide)
    · obtain ⟨-, hroom, -, -, hc1, -⟩ := h
      subst hc1
      refine ⟨?_, fun h0 => ?_⟩
      · simp only [List.length_cons, Nat.cast_add, Nat.cast_one]
        rw [ih.1]
      · have := ih.2 h0
        simp only
        omega
  | add_fail s hw e flags ret c1 e1 _ hadd hret ih =>
    rcases riscv_pmu_add_inv b pmu hw s.cpuc c1 e e1 flags ret hadd with h | h
    · obtain ⟨-, -, hc1, -⟩ := h
      subst hc1
      exact ih
    · exact absurd h.1 hret
  | del cpuc l1 l2 e hw flags c1 e1 _ hdel ih =>
    obtain ⟨-, -, hc1⟩ := riscv_pmu_del_inv b pmu hw fuel cpuc c1 e e1 flags hdel
    subst hc1
    have hlen := ih.1
    simp only [List.length_append, List.length_cons, Nat.cast_add, Nat.cast_one] at hlen
    refine ⟨?_, fun h0 => ?_⟩
    · simp only [List.length_append, Nat.cast_add]
      omega
    · have := ih.2 h0
      simp only at this ⊢
      omega

/-- C11: for every sequence of add and del calls on one CPU starting from the empty slot
table, in which del is applied only to an event that was added and not yet deleted, the state
after every call satisfies `0 <= n_events <= num_counters` (`num_counters` being a number of
counters `N`); `n_events` is the number of events added and not yet deleted. -/
theorem slot_reach_n_events_bounds (b : Build) (pmu : riscv_pmu) (fuel : Nat) (excl : Bool)
    (N : Nat) (s : slot_state) (hnum : pmu.num_counters = (N : Int))
    (hs : slot_reach b pmu fuel excl s) :
    0 ≤ s.cpuc.n_events ∧ s.cpuc.n_events ≤ pmu.num_counters ∧
    s.cpuc.n_events = (s.live.length : Int) := by
  obtain ⟨h1, h2⟩ := slot_reach_n_events b pmu fuel excl s hs
  refine ⟨by omega, h2 (by omega), h1⟩

/-- Witness of C11: the base descriptor (`N = 2`) after the add of a cycle-counter event to
the empty table. -/
theorem slot_reach_n_events_bounds_witness :
    ∃ s, slot_reach .base (riscv_base_pmu .base) 1 false s ∧ s.live.length = 1 ∧
      0 ≤ s.cpuc.n_events ∧ s.cpuc.n_events ≤ (riscv_base_pmu .base).num_counters ∧
      s.cpuc.n_events = (s.live.length : Int) :=
  ⟨_, slot_reach.add_ok _ (hw_cycle 0) (resolved_event 1 0) PERF_EF_START _ _
      slot_reach.empty (fun h => absurd h (by decide)) rfl, rfl,
    slot_reach_n_events_bounds .base (riscv_base_pmu .base) 1 false 2 _ rfl
      (slot_reach.add_ok _ (hw_cycle 0) (resolved_event 1 0) PERF_EF_START _ _
        slot_reach.empty (fun h => absurd h (by decide)) rfl)⟩

/-- The invariant of the slot table along adds and dels that obey the lifecycle: every added
event has an assigned index inside the slot array, taken from its resolved code; every
non-empty slot records an added event assigned to that slot; and, when no event is added while
another one with the same index is still added, every added event is recorded in its slot and
the assigned indices are pairwise distinct. -/
theorem slot_reach_inv (b : Build) (pmu : riscv_pmu) (fuel : Nat) (excl : Bool)
    (s : slot_state) (hs : slot_reach b pmu fuel excl s) :
    (∀ y ∈ s.live, 0 ≤ y.hw.idx ∧ y.hw.idx < RISCV_MAX_COUNTERS b ∧
      y.hw.idx = u64_to_int y.hw.config) ∧
    (∀ i id, s.cpuc.events i = some id → ∃ y ∈ s.live, y.id = id ∧ y.hw.idx = (i : Int)) ∧
    (excl = true → (∀ y ∈ s.live, s.cpuc.events y.hw.idx.toNat = some y.id) ∧
      (s.live.map (fun y => y.hw.idx)).Nodup) := by
  induction hs with
  | empty =>
    refine ⟨fun y hy => absurd hy (List.not_mem_nil y), fun i id h => ?_, fun _ => ?_⟩
    · exact Option.noConfusion h
    · exact ⟨fun y hy => absurd hy (List.not_mem_nil y), List.nodup_nil⟩
  | add_ok s hw e flags c1 e1 _ hex hadd ih =>
    obtain ⟨ihL, ihJ, ihK⟩ := ih
    rcases riscv_pmu_add_inv b pmu hw s.cpuc c1 e e1 flags 0 hadd with h | h
    · exact absurd h.1 (by decide)
    · obtain ⟨-, -, hc0, hcM, hc1, hid, hcfg, hidx⟩ := h
      subst hc1
      have hk : (((u64_to_int e.hw.config).toNat : Nat) : Int) = u64_to_int e.hw.config :=
        Int.toNat_of_nonneg hc0
      refine ⟨?_, ?_, ?_⟩
      · intro y hy
        rcases List.mem_cons.1 hy with h | h
        · subst h
          exact ⟨hidx ▸ hc0, hidx ▸ hcM, by rw [hidx, hcfg]⟩
        · exact ihL y h
      · intro i id hi
        simp only at hi
        by_cases hik : i = (u64_to_int e.hw.config).toNat
        · rw [if_pos hik] at hi
          simp only [Option.some.injEq] at hi
          exact ⟨e1, List.mem_cons_self _ _, by rw [hid, hi], by rw [hidx, hik, hk]⟩
        · rw [if_neg hik] at hi
          obtain ⟨y, hy, h1, h2⟩ := ihJ i id hi
          exact ⟨y, List.mem_cons_of_mem _ hy, h1, h2⟩
      · intro hx
        obtain ⟨ihK1, ihK2⟩ := ihK hx
        refine ⟨?_, ?_⟩
        · intro y hy
          simp only
          rcases List.mem_cons.1 hy with h | h
          · subst h
            rw [hidx, if_pos rfl, hid]
          · have hne : y.hw.idx ≠ u64_to_int e.hw.config := hex hx y h
            have hy0 := (ihL y h).1
            have hne2 : y.hw.idx.toNat ≠ (u64_to_int e.hw.config).toNat := by omega
            rw [if_neg hne2]
            exact ihK1 y h
        · simp only [List.map_cons, List.nodup_cons]
          refine ⟨?_, ihK2⟩
          rw [hidx]
          intro hmem
          obtain ⟨y, hy, hyi⟩ := List.mem_map.1 hmem
          exact hex hx y hy hyi
  | add_fail s hw e flags ret c1 e1 _ hadd hret ih =>
    rcases riscv_pmu_add_inv b pmu hw s.cpuc c1 e e1 flags ret hadd with h | h
    · obtain ⟨-, -, hc1, -⟩ := h
      subst hc1
      exact ih
    · exact absurd h.1 hret
  | del cpuc l1 l2 e hw flags c1 e1 _ hdel ih =>
    obtain ⟨ihL, ihJ, ihK⟩ := ih
    obtain ⟨he0, -, hc1⟩ := riscv_pmu_del_inv b pmu hw fuel cpuc c1 e e1 flags hdel
    subst hc1
    have hsub : ∀ y, y ∈ l1 ++ l2 → y ∈ l1 ++ e :: l2 := by
      intro y hy
      rcases List.mem_append.1 hy with h | h
      · exact List.mem_append_left _ h
      · exact List.mem_append_right _ (List.mem_cons_of_mem _ h)
    refine ⟨fun y hy => ihL y (hsub y hy), ?_, ?_⟩
    · intro i id hi
      simp only at hi
      by_cases hik : i = e.hw.idx.toNat
      · rw [if_pos hik] at hi
        exact Option.noConfusion hi
      · rw [if_neg hik] at hi
        obtain ⟨y, hy, h1, h2⟩ := ihJ i id hi
        refine ⟨y, ?_, h1, h2⟩
        have hye : y ≠ e := by
          intro h
          rw [h] at h2
          omega
        rcases List.mem_append.1 hy with h | h
        · exact List.mem_append_left _ h
        · rcases List.mem_cons.1 h with h | h
          · exact absurd h hye
          · exact List.mem_append_right _ h
    · intro hx
      obtain ⟨ihK1, ihK2⟩ := ihK hx
      simp only [List.map_append, List.map_cons] at ihK2
      have hnd := List.nodup_middle.1 ihK2
      rw [List.nodup_cons] at hnd
      refine ⟨?_, by simpa only [List.map_append] using hnd.2⟩
      intro y hy
      simp only
      have hne : y.hw.idx ≠ e.hw.idx := by
        intro h
        apply hnd.1
        rw [← h, ← List.map_append]
        exact List.mem_map_of_mem _ hy
      have hy0 := (ihL y (hsub y hy)).1
      have hne2 : y.hw.idx.toNat ≠ e.hw.idx.toNat := by omega
      rw [if_neg hne2]
      exact ihK1 y (hsub y hy)

/-- C12, counterexample: base descriptor, two cycle-counter events (addresses 1 and 2, both
with resolved code 0) added to the empty table. Both adds succeed; then `n_events` is 2 while
one slot is non-empty, and the still-added event 1 is not the owner recorded in slot 0 (event 2
is). The del of event 1 then empties slot 0 while event 2 is still added. -/
theorem slot_reach_shared_code :
    (∃ s, slot_reach .base (riscv_base_pmu .base) 1 false s ∧
      s.cpuc.n_events = 2 ∧ occupied_slots .base s.cpuc = 1 ∧
      ∃ e ∈ s.live, e.id = 1 ∧ e.hw.config = 0 ∧ s.cpuc.events e.hw.config = some 2) ∧
    (∃ s, slot_reach .base (riscv_base_pmu .base) 1 false s ∧
      ∃ e ∈ s.live, e.id = 2 ∧ e.hw.config = 0 ∧ s.cpuc.events e.hw.config = none) := by
  have h1 : slot_reach .base (riscv_base_pmu .base) 1 false _ :=
    slot_reach.add_ok _ (hw_cycle 0) (resolved_event 1 0) 0 _ _
      slot_reach.empty (fun h => absurd h (by decide)) rfl
  have h2 : slot_reach .base (riscv_base_pmu .base) 1 false _ :=
    slot_reach.add_ok _ (hw_cycle 0) (resolved_event 2 0) 0 _ _
      h1 (fun h => absurd h (by decide)) rfl
  have h3 : slot_reach .base (riscv_base_pmu .base) 1 false _ :=
    slot_reach.del _ [_] [] _ (hw_cycle 0) 0 _ _ h2 rfl
  exact ⟨⟨_, h2, rfl, rfl, _, List.mem_cons_of_mem _ (List.mem_cons_self _ _), rfl, rfl, rfl⟩,
    ⟨_, h3, _, List.mem_cons_self _ _, rfl, rfl, rfl⟩⟩

/-- The indices `i` below `n` that satisfy `p` are as many as the elements of a duplicate-free
list that lists exactly them. -/
theorem length_filter_range_eq (n : Nat) (p : Nat → Bool) (l : List Nat) (hl : l.Nodup)
    (hmem : ∀ i, i ∈ l ↔ i < n ∧ p i = true) :
    ((List.range n).filter p).length = l.length := by
  have hnd : ((List.range n).filter p).Nodup := (List.nodup_range n).filter _
  have hperm : ((List.range n).filter p).Perm l := by
    rw [List.perm_ext_iff_of_nodup hnd hl]
    intro i
    rw [List.mem_filter, List.mem_range, hmem]
  exact hperm.length_eq

/-- C12, amended: in every slot-table state reachable from the empty table by add and del
calls that obey the lifecycle, `n_events` is the number of events added and not yet deleted,
every such event has the index of its resolved code inside the slot array, and every non-empty
slot records one of them, assigned to that slot. For the sequences in which no event is added
while another event with the same resolved code is still added (`excl = true`), moreover
`n_events` equals the number of non-empty slots and every event that is added and not yet
deleted is the owner recorded in the slot of its resolved code. -/
theorem slot_reach_owners (b : Build) (pmu : riscv_pmu) (fuel : Nat) (excl : Bool)
    (s : slot_state) (hs : slot_reach b pmu fuel excl s) :
    s.cpuc.n_events = (s.live.length : Int) ∧
    (∀ y ∈ s.live, 0 ≤ y.hw.idx ∧ y.hw.idx < RISCV_MAX_COUNTERS b ∧
      y.hw.idx = u64_to_int y.hw.config) ∧
    (∀ i id, s.cpuc.events i = some id → ∃ y ∈ s.live, y.id = id ∧ y.hw.idx = (i : Int)) ∧
    (excl = true →
      s.cpuc.n_events = (occupied_slots b s.cpuc : Int) ∧
      ∀ y ∈ s.live, s.cpuc.events y.hw.idx.toNat = some y.id) := by
  obtain ⟨hL, hJ, hK⟩ := slot_reach_inv b pmu fuel excl s hs
  have hn := (slot_reach_n_events b pmu fuel excl s hs).1
  refine ⟨hn, hL, hJ, fun hx => ?_⟩
  obtain ⟨hK1, hK2⟩ := hK hx
  refine ⟨?_, hK1⟩
  have hnd : (s.live.map (fun y => y.hw.idx.toNat)).Nodup := by
    have hmap : s.live.map (fun y => y.hw.idx.toNat)
        = (s.live.map (fun y => y.hw.idx)).map Int.toNat := by
      rw [List.map_map]
      rfl
    rw [hmap]
    refine List.Nodup.map_on ?_ hK2
    intro x hxm y hym hxy
    obtain ⟨x1, hx1, rfl⟩ := List.mem_map.1 hxm
    obtain ⟨y1, hy1, rfl⟩ := List.mem_map.1 hym
    have := (hL x1 hx1).1
    have := (hL y1 hy1).1
    omega
  have hcount := length_filter_range_eq (RISCV_MAX_COUNTERS b).toNat
    (fun i => (s.cpuc.events i).isSome) (s.live.map (fun y => y.hw.idx.toNat)) hnd (by
      intro i
      constructor
      · intro hi
        obtain ⟨y, hy, rfl⟩ := List.mem_map.1 hi
        obtain ⟨h0, hM, -⟩ := hL y hy
        refine ⟨by omega, ?_⟩
        simp only [hK1 y hy, Option.isSome_some]
      · rintro ⟨-, hi⟩
        obtain ⟨id, hid⟩ := Option.isSome_iff_exists.1 hi
        obtain ⟨y, hy, -, hyi⟩ := hJ i id hid
        exact List.mem_map.2 ⟨y, hy, by omega⟩)
  rw [List.length_map] at hcount
  unfold occupied_slots
  rw [hcount, hn]

/-- Witness of the amended C12: the base descriptor after the adds of a cycle-counter event
and an instruction-counter event (codes 0 and 1) to the empty table. -/
theorem slot_reach_owners_witness :
    ∃ s, slot_reach .base (riscv_base_pmu .base) 1 true s ∧ s.live.length = 2 ∧
      s.cpuc.n_events = (occupied_slots .base s.cpuc : Int) ∧
      ∀ y ∈ s.live, s.cpuc.events y.hw.idx.toNat = some y.id := by
  have h1 : slot_reach .base (riscv_base_pmu .base) 1 true _ :=
    slot_reach.add_ok _ (hw_cycle 0) (resolved_event 1 0) 0 _ _
      slot_reach.empty (fun _ x hx => absurd hx (List.not_mem_nil x)) rfl
  have h2 : slot_reach .base (riscv_base_pmu .base) 1 true _ :=
    slot_reach.add_ok _ (hw_cycle 0) (resolved_event 2 1) 0 _ _
      h1 (fun _ x hx => by
        rw [List.mem_singleton.1 hx]
        decide) rfl
  exact ⟨_, h2, rfl, (slot_reach_owners .base (riscv_base_pmu .base) 1 true _ h2).2.2.2 rfl⟩

/-- C13, counterexample: base descriptor, the cycle-counter event with assigned index `-1` (as
after init) is added to the empty table and then deleted; after the del its assigned index is
0, the index the add assigned, not `-1`. -/
theorem riscv_pmu_del_idx_not_cleared :
    ∃ t1 a1 t2 d1,
      (resolved_event 1 0).hw.idx = -1 ∧
      riscv_pmu_add .base (riscv_base_pmu .base) (hw_cycle 0) cpu_hw_events_empty
        (resolved_event 1 0) PERF_EF_START = some (0, t1, a1) ∧
      riscv_pmu_del .base (riscv_base_pmu .base) (hw_cycle 7) 1 t1 a1 0 = some (t2, d1) ∧
      d1.hw.idx = 0 ∧ d1.hw.idx ≠ -1 :=
  ⟨_, _, _, _, rfl, rfl, rfl, rfl, by decide⟩

/-- C13, amended: `riscv_pmu_del` on an added event (assigned index `c`, a slot of the array;
valid counter width) completes and leaves the assigned index as the add set it: afterwards
`hwc.idx` is still `c`, the resolved code, and not `-1`; the index is `-1` only from init to
the first add. -/
theorem riscv_pmu_del_keeps_idx (b : Build) (pmu : riscv_pmu) (hw : Hw) (fuel : Nat)
    (cpuc : cpu_hw_events) (event : perf_event) (flags w c : Nat)
    (hwidth : pmu.counter_width = (w : Int)) (hw63 : w ≤ 63)
    (hidx : event.hw.idx = (c : Int)) (hc : (c : Int) < RISCV_MAX_COUNTERS b) :
    ∃ cpuc1 event1, riscv_pmu_del b pmu hw (fuel + 1) cpuc event flags = some (cpuc1, event1) ∧
      event1.hw.idx = (c : Int) ∧ event1.hw.idx ≠ -1 ∧ event1.hw.config = event.hw.config := by
  obtain ⟨event1, hdel, -, hcfg, hi⟩ :=
    riscv_pmu_del_ok b pmu hw fuel cpuc event flags w c hwidth hw63 hidx hc
  refine ⟨_, event1, hdel, by rw [hi, hidx], ?_, hcfg⟩
  rw [hi, hidx]
  omega

/-- Witness of the amended C13: the del of a running cycle-counter event on the base build. -/
theorem riscv_pmu_del_keeps_idx_witness :
    ∃ cpuc1 event1,
      riscv_pmu_del .base (riscv_base_pmu .base) (hw_cycle 7) (0 + 1) cpuc_full event_c1 0
        = some (cpuc1, event1) ∧
      event1.hw.idx = ((0 : Nat) : Int) ∧ event1.hw.idx ≠ -1 ∧
      event1.hw.config = event_c1.hw.config :=
  riscv_pmu_del_keeps_idx .base (riscv_base_pmu .base) (hw_cycle 7) 0 cpuc_full event_c1 0 63 0
    rfl (by decide) rfl (by decide)

/-- Setting the `STOPPED` flag makes it set. -/
theorem stopped_set (s : Nat) : (s ||| PERF_HES_STOPPED) &&& PERF_HES_STOPPED ≠ 0 := by
  intro h
  have ht : ((s ||| PERF_HES_STOPPED) &&& PERF_HES_STOPPED).testBit 0 = true := by
    simp [PERF_HES_STOPPED, Nat.testBit_and, Nat.testBit_or]
  rw [h] at ht
  simp at ht

/-- Setting the `UPTODATE` flag makes it set. -/
theorem uptodate_set (s : Nat) : (s ||| PERF_HES_UPTODATE) &&& PERF_HES_UPTODATE ≠ 0 := by
  intro h
  have ht : ((s ||| PERF_HES_UPTODATE) &&& PERF_HES_UPTODATE).testBit 1 = true := by
    rw [Nat.testBit_and, Nat.testBit_or]
    have h2 : Nat.testBit PERF_HES_UPTODATE 1 = true := by decide
    simp [h2]
  rw [h] at ht
  simp at ht

/-- Setting the `STOPPED` flag does not touch the `UPTODATE` flag. -/
theorem stopped_keeps_uptodate (s : Nat) :
    (s ||| PERF_HES_STOPPED) &&& PERF_HES_UPTODATE = s &&& PERF_HES_UPTODATE := by
  rw [Nat.and_comm, Nat.and_or_distrib_left, Nat.and_comm]
  simp [PERF_HES_STOPPED, PERF_HES_UPTODATE]

/-- Setting the `UPTODATE` flag does not touch the `STOPPED` flag. -/
theorem uptodate_keeps_stopped (s : Nat) :
    (s ||| PERF_HES_UPTODATE) &&& PERF_HES_STOPPED = s &&& PERF_HES_STOPPED := by
  rw [Nat.and_comm, Nat.and_or_distrib_left, Nat.and_comm]
  simp [PERF_HES_STOPPED, PERF_HES_UPTODATE]

/-- C14: `riscv_pmu_stop` (valid counter width, fuel for the retry loop of the read) completes
and sets the `STOPPED` flag, for a running event as for any other. Called with the flush flag
while `UPTODATE` is clear it performs one update, the logical count growing by the masked
delta between the baseline and the current register value and the baseline becoming that
value, and then sets `UPTODATE`. Called without the flush flag, or while `UPTODATE` is set, it
leaves the logical count and the baseline unchanged. -/
theorem riscv_pmu_stop_spec (b : Build) (pmu : riscv_pmu) (hw : Hw) (fuel : Nat)
    (event : perf_event) (flags w : Nat) (hwidth : pmu.counter_width = (w : Int))
    (hw63 : w ≤ 63) :
    ∃ event1, riscv_pmu_stop b pmu hw (fuel + 1) event flags = some event1 ∧
      event1.hw.state &&& PERF_HES_STOPPED ≠ 0 ∧
      (flags &&& PERF_EF_UPDATE ≠ 0 ∧ event.hw.state &&& PERF_HES_UPTODATE = 0 →
        event1.count = (event.count
          + ((((read_counter b hw event.hw.idx : Nat) : Int) - (event.hw.prev_count : Int))
              % 2 ^ 64 % 2 ^ w).toNat) % 2 ^ 64 ∧
        event1.hw.prev_count = read_counter b hw event.hw.idx ∧
        event1.hw.state &&& PERF_HES_UPTODATE ≠ 0 ∧
        event1.hw.state = event.hw.state ||| PERF_HES_STOPPED ||| PERF_HES_UPTODATE) ∧
      (¬ (flags &&& PERF_EF_UPDATE ≠ 0 ∧ event.hw.state &&& PERF_HES_UPTODATE = 0) →
        event1.count = event.count ∧
        event1.hw.prev_count = event.hw.prev_count ∧
        event1.hw.state = event.hw.state ||| PERF_HES_STOPPED) := by
  unfold riscv_pmu_stop
  simp only [stopped_keeps_uptodate, ne_eq, Decidable.not_not]
  by_cases hc : ¬ (flags &&& PERF_EF_UPDATE = 0) ∧ event.hw.state &&& PERF_HES_UPTODATE = 0
  · rw [if_pos hc, riscv_pmu_read_eq b pmu hw fuel _ w hwidth hw63]
    refine ⟨_, rfl, ?_, fun _ => ⟨?_, rfl, ?_, rfl⟩, fun h => absurd hc h⟩
    · simp only [uptodate_keeps_stopped]
      exact stopped_set _
    · simp only
      rw [← u64_delta_eq, Int.toNat_ofNat]
      rfl
    · exact uptodate_set _
  · rw [if_neg hc]
    exact ⟨_, rfl, stopped_set _, fun h => absurd h hc, fun _ => ⟨rfl, rfl, rfl⟩⟩

/-- Witness of C14: a flushing stop of the running event with baseline 250 when the register
holds 10, at width 8: the count 5 grows by 16. -/
theorem riscv_pmu_stop_spec_witness :
    ∃ event1, riscv_pmu_stop .base pmu_width8 (hw_cycle 10) (0 + 1) event_c1 PERF_EF_UPDATE
        = some event1 ∧
      event1.count = 21 ∧ event1.hw.prev_count = 10 ∧
      event1.hw.state = PERF_HES_STOPPED ||| PERF_HES_UPTODATE := by
  obtain ⟨e1, h1, -, h2, -⟩ := riscv_pmu_stop_spec .base pmu_width8 (hw_cycle 10) 0 event_c1
    PERF_EF_UPDATE 8 rfl (by decide)
  obtain ⟨h3, h4, -, h5⟩ := h2 (by decide)
  exact ⟨e1, h1, h3, h4, h5⟩

/-- The `u64` difference of a value and itself is 0. -/
theorem u64_sub_self (a : Nat) : u64_sub a a = 0 := by
  unfold u64_sub U64
  omega

/-- C15: for every event whose state includes `STOPPED`, `riscv_pmu_start` clears the state
(neither `STOPPED` nor `UPTODATE` is set), leaves the logical count unchanged and sets the
baseline to the current raw value of the event's assigned counter, so that an update executed
right afterwards with the register unchanged (valid counter width, fuel for the retry loop)
adds 0 to the logical count; for an event whose state does not include `STOPPED`, start
returns the event as it was. -/
theorem riscv_pmu_start_spec (b : Build) (pmu : riscv_pmu) (hw : Hw) (fuel : Nat)
    (event : perf_event) (flags w : Nat) (hwidth : pmu.counter_width = (w : Int))
    (hw63 : w ≤ 63) :
    (event.hw.state &&& PERF_HES_STOPPED ≠ 0 →
      (riscv_pmu_start b hw event flags).hw.state = 0 ∧
      (riscv_pmu_start b hw event flags).hw.state &&& PERF_HES_STOPPED = 0 ∧
      (riscv_pmu_start b hw event flags).hw.state &&& PERF_HES_UPTODATE = 0 ∧
      (riscv_pmu_start b hw event flags).count = event.count ∧
      (riscv_pmu_start b hw event flags).hw.idx = event.hw.idx ∧
      (riscv_pmu_start b hw event flags).hw.prev_count = read_counter b hw event.hw.idx ∧
      ∃ event2, riscv_pmu_read b pmu hw (fuel + 1) (riscv_pmu_start b hw event flags)
          = some event2 ∧
        event2.count = (event.count + 0) % 2 ^ 64 ∧
        (event.count < 2 ^ 64 → event2.count = event.count) ∧
        event2.hw.prev_count = read_counter b hw event.hw.idx) ∧
    (event.hw.state &&& PERF_HES_STOPPED = 0 → riscv_pmu_start b hw event flags = event) := by
  constructor
  · intro hst
    have hs : riscv_pmu_start b hw event flags
        = { event with hw := { event.hw with
              state := 0, prev_count := read_counter b hw event.hw.idx } } := by
      unfold riscv_pmu_start
      rw [if_neg (not_not.2 hst)]
    rw [hs]
    refine ⟨rfl, Nat.zero_and _, Nat.zero_and _, rfl, rfl, rfl, ?_⟩
    rw [riscv_pmu_read_eq b pmu hw fuel _ w hwidth hw63]
    refine ⟨_, rfl, ?_, ?_, rfl⟩
    · simp only [u64_sub_self, Nat.zero_mod]
      rfl
    · intro hlt
      simp only [u64_sub_self, Nat.zero_mod, Nat.add_zero]
      exact Nat.mod_eq_of_lt hlt
  · intro hst
    unfold riscv_pmu_start
    rw [if_pos (not_not.2 hst)]

/-- Witness of C15: the start of a stopped event with count 5 while the register holds 10. -/
theorem riscv_pmu_start_spec_witness :
    (riscv_pmu_start .base (hw_cycle 10) event_stopped PERF_EF_RELOAD).hw.state = 0 ∧
    (riscv_pmu_start .base (hw_cycle 10) event_stopped PERF_EF_RELOAD).hw.prev_count = 10 ∧
    ∃ event2, riscv_pmu_read .base (riscv_base_pmu .base) (hw_cycle 10) (0 + 1)
        (riscv_pmu_start .base (hw_cycle 10) event_stopped PERF_EF_RELOAD) = some event2 ∧
      event2.count = 5 := by
  obtain ⟨h1, -, -, -, -, h2, e2, h3, -, h4, -⟩ :=
    (riscv_pmu_start_spec .base (riscv_base_pmu .base) (hw_cycle 10) 0 event_stopped
      PERF_EF_RELOAD 63 rfl (by decide)).1 (by decide)
  exact ⟨h1, h2, e2, h3, h4 (by decide)⟩

/-- C16, counterexample: base descriptor (width 63), a cycle-counter event added and started
with count 0 while the register holds 0, then read three times, the 64-bit register having
advanced by `2 ^ 63 - 1` ticks before each read (values `2 ^ 63 - 1`, `2 ^ 64 - 2`, and, after
its wrap, `2 ^ 63 - 3`). The reads return `2 ^ 63 - 1`, `2 ^ 64 - 2` and `2 ^ 63 - 3`: the third
value is below the second. -/
theorem riscv_pmu_read_seq_wraps :
    ∃ t1 a1 e1 e2 e3,
      riscv_pmu_add .base (riscv_base_pmu .base) (hw_cycle 0) cpu_hw_events_empty
        (resolved_event 1 0) PERF_EF_START = some (0, t1, a1) ∧
      a1.count = 0 ∧ a1.hw.state = 0 ∧
      riscv_pmu_read_seq .base (riscv_base_pmu .base) 1
        [hw_cycle (2 ^ 63 - 1), hw_cycle (2 ^ 64 - 2), hw_cycle (2 ^ 63 - 3)] a1
        = some [e1, e2, e3] ∧
      e1.count = 2 ^ 63 - 1 ∧ e2.count = 2 ^ 64 - 2 ∧ e3.count = 2 ^ 63 - 3 ∧
      e3.count < e2.count :=
  ⟨_, _, _, _, _, rfl, rfl, rfl, rfl, rfl, rfl, rfl, by decide⟩

/-- C16, amended: for any event and every sequence of raw register values observed by
successive reads (valid counter width `w`, fuel for the retry loop), every read completes and
returns the preceding logical count plus a masked delta `d` with `0 <= d < 2 ^ w`, modulo
`2 ^ 64`; so each read returns a value greater than or equal to that of the preceding read
whenever the 64-bit count does not wrap at that read, and the whole sequence is non-decreasing
when the count before the first read plus `2 ^ w - 1` per read stays below `2 ^ 64`. -/
theorem riscv_pmu_read_seq_steps (b : Build) (pmu : riscv_pmu) (fuel w : Nat)
    (hwidth : pmu.counter_width = (w : Int)) (hw63 : w ≤ 63) (hws : List Hw)
    (event : perf_event) :
    ∃ events, riscv_pmu_read_seq b pmu (fuel + 1) hws event = some events ∧
      events.length = hws.length ∧
      List.Chain (fun a c : perf_event => ∃ d, d < 2 ^ w ∧
        c.count = (a.count + d) % 2 ^ 64 ∧ (a.count + d < 2 ^ 64 → a.count ≤ c.count))
        event events ∧
      (event.count + hws.length * (2 ^ w - 1) < 2 ^ 64 →
        List.Chain (fun a c : perf_event => a.count ≤ c.count) event events) := by
  induction hws generalizing event with
  | nil => exact ⟨[], rfl, rfl, List.Chain.nil, fun _ => List.Chain.nil⟩
  | cons hw rest ih =>
    have hread := riscv_pmu_read_eq b pmu hw fuel event w hwidth hw63
    have hpos : 0 < 2 ^ w := Nat.pos_pow_of_pos _ (by norm_num)
    have hd : u64_sub (read_counter b hw event.hw.idx) event.hw.prev_count % 2 ^ w < 2 ^ w :=
      Nat.mod_lt _ hpos
    generalize u64_sub (read_counter b hw event.hw.idx) event.hw.prev_count % 2 ^ w = d
      at hread hd
    obtain ⟨events, hseq, hlen, hchain, hmono⟩ := ih
      { event with
        hw := { event.hw with prev_count := read_counter b hw event.hw.idx }
        count := (event.count + d) % U64 }
    refine ⟨_ :: events, ?_, ?_, List.Chain.cons ⟨d, hd, rfl, ?_⟩ hchain, ?_⟩
    · simp only [riscv_pmu_read_seq, hread, hseq]
    · simp only [List.length_cons, hlen]
    · intro hlt
      show event.count ≤ (event.count + d) % 2 ^ 64
      rw [Nat.mod_eq_of_lt hlt]
      exact Nat.le_add_right _ _
    · intro hlt
      simp only [List.length_cons, Nat.succ_mul] at hlt
      have hdle : d ≤ 2 ^ w - 1 := by omega
      have hsum : event.count + d < 2 ^ 64 := by omega
      have hcnt : (event.count + d) % U64 = event.count + d := Nat.mod_eq_of_lt hsum
      refine List.Chain.cons ?_ (hmono ?_)
      · show event.count ≤ (event.count + d) % U64
        rw [hcnt]
        exact Nat.le_add_right _ _
      · show (event.count + d) % U64 + rest.length * (2 ^ w - 1) < 2 ^ 64
        rw [hcnt]
        omega

/-- Witness of the amended C16: the running event with baseline 250 and count 5 on the base
build at width 8, read when the register holds 260 and then 300. -/
theorem riscv_pmu_read_seq_steps_witness :
    ∃ events, riscv_pmu_read_seq .base pmu_width8 (0 + 1)
        [hw_cycle 260, hw_cycle 300] event_c1 = some events ∧
      events.length = 2 ∧
      List.Chain (fun a c : perf_event => a.count ≤ c.count) event_c1 events := by
  obtain ⟨events, h1, h2, -, h3⟩ := riscv_pmu_read_seq_steps .base pmu_width8 0 8
    rfl (by decide) [hw_cycle 260, hw_cycle 300] event_c1
  exact ⟨events, h1, h2, h3 (by decide)⟩

/-- What `reserve_pmc_hardware` returns and records. -/
theorem reserve_pmc_hardware_eq (pmu : riscv_pmu) (irq_ret : Int) (g : pmc_global) :
    reserve_pmc_hardware pmu irq_ret g
      = (if pmu.irq ≥ 0 ∧ pmu.handle_irq = true then irq_ret else 0,
          { riscv_active_events := g.riscv_active_events
            log := g.log ++ reserve_ops pmu irq_ret }) := by
  unfold reserve_pmc_hardware reserve_ops
  split_ifs <;> simp

/-- What `release_pmc_hardware` records. -/
theorem release_pmc_hardware_eq (pmu : riscv_pmu) (g : pmc_global) :
    release_pmc_hardware pmu g
      = { riscv_active_events := g.riscv_active_events, log := g.log ++ release_ops pmu } := by
  unfold release_pmc_hardware release_ops
  split_ifs <;> simp

/-- What `riscv_event_destroy` does: it decrements the counter, and releases the hardware
exactly when the counter reaches 0. -/
theorem riscv_event_destroy_eq (pmu : riscv_pmu) (g : pmc_global) :
    riscv_event_destroy pmu g
      = { riscv_active_events := atomic_dec_return g.riscv_active_events
          log := g.log ++
            (if atomic_dec_return g.riscv_active_events = 0 then release_ops pmu else []) } := by
  simp only [riscv_event_destroy, release_pmc_hardware_eq]
  split_ifs <;> simp

/-- The outcomes of the part of `riscv_event_init` after the reservation: a request of another
type than HARDWARE and HW_CACHE is rejected with the state as it is; a request mapped to a
code is accepted; a request whose mapping fails is rejected after `riscv_event_destroy`. -/
theorem riscv_event_init_map_cases (b : Build) (pmu : riscv_pmu) (g g1 : pmc_global)
    (e e1 : perf_event) (ret : Int)
    (hmap : riscv_event_init_map b pmu g e = some (ret, g1, e1)) :
    (e.attr.type ≠ PERF_TYPE_HARDWARE ∧ e.attr.type ≠ PERF_TYPE_HW_CACHE ∧
      ret < 0 ∧ g1 = g ∧ e1 = e) ∨
    (ret = 0 ∧ g1 = g ∧ e1.hw.idx = -1 ∧ e1.hw.state = e.hw.state ∧ e1.count = e.count) ∨
    ((e.attr.type = PERF_TYPE_HARDWARE ∨ e.attr.type = PERF_TYPE_HW_CACHE) ∧
      ret < 0 ∧ g1 = riscv_event_destroy pmu g ∧ e1.hw = e.hw) := by
  have hcode : ∀ code : Int,
      (if code < 0 then some (code, riscv_event_destroy pmu g, { e with destroy := true })
        else some (0, g, { e with
          destroy := true, hw := { e.hw with config := code.toNat, idx := -1 } }))
        = some (ret, g1, e1) →
      (ret = 0 ∧ g1 = g ∧ e1.hw.idx = -1 ∧ e1.hw.state = e.hw.state ∧ e1.count = e.count) ∨
      (ret < 0 ∧ g1 = riscv_event_destroy pmu g ∧ e1.hw = e.hw) := by
    intro code h
    by_cases hneg : code < 0
    · rw [if_pos hneg] at h
      simp only [Option.some.injEq, Prod.mk.injEq] at h
      obtain ⟨h1, h2, h3⟩ := h
      exact Or.inr ⟨h1 ▸ hneg, h2.symm, by rw [← h3]⟩
    · rw [if_neg hneg] at h
      simp only [Option.some.injEq, Prod.mk.injEq] at h
      obtain ⟨h1, h2, h3⟩ := h
      exact Or.inl ⟨h1.symm, h2.symm, by rw [← h3], by rw [← h3], by rw [← h3]⟩
  unfold riscv_event_init_map at hmap
  by_cases ht : e.attr.type = PERF_TYPE_HARDWARE
  · simp only [ht, if_true] at hmap
    cases hm : riscv_map_hw_event pmu e.attr.config with
    | none => simp [hm] at hmap
    | some code =>
      simp only [hm, Option.map_some'] at hmap
      rcases hcode code hmap with h | h
      · exact Or.inr (Or.inl h)
      · exact Or.inr (Or.inr ⟨Or.inl ht, h⟩)
  · by_cases hc : e.attr.type = PERF_TYPE_HW_CACHE
    · have h34 : PERF_TYPE_HW_CACHE ≠ PERF_TYPE_HARDWARE := by decide
      simp only [hc, h34, if_true, if_false] at hmap
      cases hm : riscv_map_cache_event b pmu e.attr.config with
      | none => simp [hm] at hmap
      | some code =>
        simp only [hm, Option.map_some'] at hmap
        rcases hcode code hmap with h | h
        · exact Or.inr (Or.inl h)
        · exact Or.inr (Or.inr ⟨Or.inr hc, h⟩)
    · left
      simp only [ht, hc, if_false] at hmap
      by_cases hr : e.attr.type = PERF_TYPE_RAW
      · simp only [hr, if_true, Option.some.injEq, Prod.mk.injEq] at hmap
        exact ⟨ht, hc, by rw [← hmap.1]; decide, hmap.2.1.symm, hmap.2.2.symm⟩
      · simp only [hr, if_false, Option.some.injEq, Prod.mk.injEq] at hmap
        exact ⟨ht, hc, by rw [← hmap.1]; decide, hmap.2.1.symm, hmap.2.2.symm⟩

/-- The outcomes of `riscv_event_init` from a counter value of a 32-bit `int`: on the first
event process-wide a failed reservation gives `-EBUSY` with the counter put back and the
handle untouched; otherwise the call goes on to the mapping, after the reservation when the
counter went from 0 to 1. -/
theorem riscv_event_init_cases (b : Build) (pmu : riscv_pmu) (irq_ret : Int)
    (g g1 : pmc_global) (e e1 : perf_event) (ret : Int)
    (hg1 : -2 ^ 31 ≤ g.riscv_active_events) (hg2 : g.riscv_active_events < 2 ^ 31)
    (hinit : riscv_event_init b pmu irq_ret g e = some (ret, g1, e1)) :
    (g.riscv_active_events = 0 ∧ (pmu.irq ≥ 0 ∧ pmu.handle_irq = true) ∧ irq_ret ≠ 0 ∧
      ret = -EBUSY ∧ e1 = e ∧
      g1 = { riscv_active_events := 0, log := g.log ++ reserve_ops pmu irq_ret }) ∨
    (g.riscv_active_events = 0 ∧ (pmu.irq ≥ 0 ∧ pmu.handle_irq = true → irq_ret = 0) ∧
      riscv_event_init_map b pmu
        { riscv_active_events := 1, log := g.log ++ reserve_ops pmu irq_ret } e
        = some (ret, g1, e1)) ∨
    (g.riscv_active_events ≠ 0 ∧
      riscv_event_init_map b pmu
        { riscv_active_events := atomic_inc_return g.riscv_active_events, log := g.log } e
        = some (ret, g1, e1)) := by
  have hone := (atomic_counter_tests g.riscv_active_events hg1 hg2).1
  have hdec : atomic_dec_return 1 = 0 := by decide
  unfold riscv_event_init at hinit
  simp only [reserve_pmc_hardware_eq] at hinit
  by_cases h0 : g.riscv_active_events = 0
  · have h1 : atomic_inc_return g.riscv_active_events = 1 := hone.2 h0
    rw [if_pos h1] at hinit
    by_cases hi : pmu.irq ≥ 0 ∧ pmu.handle_irq = true
    · simp only [hi, and_self, if_true] at hinit
      by_cases hr : irq_ret = 0
      · right; left
        simp only [hr, ne_eq, not_true_eq_false, if_false] at hinit
        refine ⟨h0, fun _ => hr, ?_⟩
        rw [hr, ← hinit, h1]
      · left
        simp only [ne_eq, hr, not_false_eq_true, if_true, Option.some.injEq,
          Prod.mk.injEq] at hinit
        refine ⟨h0, hi, hr, hinit.1.symm, hinit.2.2.symm, ?_⟩
        rw [← hinit.2.1, h1, hdec]
    · right; left
      simp only [hi, if_false, ne_eq, not_true_eq_false] at hinit
      refine ⟨h0, fun h => absurd h hi, ?_⟩
      rw [← hinit, h1]
  · right; right
    have h1 : ¬ atomic_inc_return g.riscv_active_events = 1 := fun h => h0 (hone.1 h)
    rw [if_neg h1] at hinit
    exact ⟨h0, hinit⟩

/-- Whether the hardware is reserved after the calls recorded by `reserve_pmc_hardware`, and
after those recorded by `release_pmc_hardware`. -/
theorem hw_reserved_append (pmu : riscv_pmu) (irq_ret : Int) (l : List pmc_op) :
    hw_reserved (l ++ reserve_ops pmu irq_ret)
      = (if pmu.irq ≥ 0 ∧ pmu.handle_irq = true then decide (irq_ret = 0) else true) ∧
    hw_reserved (l ++ release_ops pmu) = false := by
  unfold hw_reserved reserve_ops release_ops
  constructor
  · split_ifs with h1 <;> simp [List.foldl_append, hw_reserved_step]
  · split_ifs <;> simp [List.foldl_append, hw_reserved_step]

/-- The interrupt calls among the calls recorded by `reserve_pmc_hardware` and by
`release_pmc_hardware`: the former never frees, the latter never requests. -/
theorem pmc_ops_mem (pmu : riscv_pmu) (irq_ret : Int) :
    (∀ irq, pmc_op.free_irq irq ∉ reserve_ops pmu irq_ret) ∧
    (∀ irq r, pmc_op.request_irq irq r ∉ release_ops pmu) := by
  unfold reserve_ops release_ops
  constructor
  · intro irq
    split_ifs <;> simp
  · intro irq r
    split_ifs <;> simp

/-- The calls one `riscv_event_init` records, from any counter value of a 32-bit `int`: the
interrupt is requested only when the counter was 0 before the call, which takes it to 1; it is
freed only when the counter was 0 before the call, was taken to 1 and is put back to 0 by the
rollback of a failed mapping. -/
theorem riscv_event_init_log (b : Build) (pmu : riscv_pmu) (irq_ret : Int)
    (g g1 : pmc_global) (e e1 : perf_event) (ret : Int)
    (hg1 : -2 ^ 31 ≤ g.riscv_active_events) (hg2 : g.riscv_active_events < 2 ^ 31)
    (hinit : riscv_event_init b pmu irq_ret g e = some (ret, g1, e1)) :
    ∃ ops, g1.log = g.log ++ ops ∧
      ((∃ irq r, pmc_op.request_irq irq r ∈ ops) →
        g.riscv_active_events = 0 ∧ (ret = 0 → g1.riscv_active_events = 1)) ∧
      ((∃ irq, pmc_op.free_irq irq ∈ ops) →
        g.riscv_active_events = 0 ∧ g1.riscv_active_events = 0) := by
  have hfree := (pmc_ops_mem pmu irq_ret).1
  have hdec : atomic_dec_return 1 = 0 := by decide
  have hback := (atomic_counter_tests g.riscv_active_events hg1 hg2).2.2
  rcases riscv_event_init_cases b pmu irq_ret g g1 e e1 ret hg1 hg2 hinit with h | h | h
  · obtain ⟨h0, -, -, hret, -, hg1⟩ := h
    subst hg1
    refine ⟨reserve_ops pmu irq_ret, rfl, fun _ => ⟨h0, fun hr => ?_⟩, ?_⟩
    · rw [hret] at hr
      exact absurd hr (by decide)
    · rintro ⟨irq, hm⟩
      exact absurd hm (hfree irq)
  · obtain ⟨h0, -, hmap⟩ := h
    rcases riscv_event_init_map_cases b pmu _ g1 e e1 ret hmap with h | h | h
    · obtain ⟨-, -, hneg, hg1, -⟩ := h
      subst hg1
      refine ⟨reserve_ops pmu irq_ret, rfl, fun _ => ⟨h0, fun _ => rfl⟩, ?_⟩
      rintro ⟨irq, hm⟩
      exact absurd hm (hfree irq)
    · obtain ⟨-, hg1, -⟩ := h
      subst hg1
      refine ⟨reserve_ops pmu irq_ret, rfl, fun _ => ⟨h0, fun _ => rfl⟩, ?_⟩
      rintro ⟨irq, hm⟩
      exact absurd hm (hfree irq)
    · obtain ⟨-, hneg, hg1, -⟩ := h
      subst hg1
      refine ⟨reserve_ops pmu irq_ret ++ release_ops pmu, ?_, fun _ => ⟨h0, fun hr => ?_⟩,
        fun _ => ⟨h0, ?_⟩⟩
      · simp [riscv_event_destroy_eq, hdec]
      · omega
      · simp [riscv_event_destroy_eq, hdec]
  · obtain ⟨h0, hmap⟩ := h
    have hnil : ∀ g2 : pmc_global, g2.log = g.log →
        ∃ ops, g2.log = g.log ++ ops ∧
          ((∃ irq r, pmc_op.request_irq irq r ∈ ops) →
            g.riscv_active_events = 0 ∧ (ret = 0 → g2.riscv_active_events = 1)) ∧
          ((∃ irq, pmc_op.free_irq irq ∈ ops) →
            g.riscv_active_events = 0 ∧ g2.riscv_active_events = 0) := by
      intro g2 hg2
      refine ⟨[], by rw [hg2, List.append_nil], ?_, ?_⟩
      · rintro ⟨irq, r, hm⟩
        exact absurd hm (List.not_mem_nil _)
      · rintro ⟨irq, hm⟩
        exact absurd hm (List.not_mem_nil _)
    rcases riscv_event_init_map_cases b pmu _ g1 e e1 ret hmap with h | h | h
    · obtain ⟨-, -, -, hg1, -⟩ := h
      subst hg1
      exact hnil _ rfl
    · obtain ⟨-, hg1, -⟩ := h
      subst hg1
      exact hnil _ rfl
    · obtain ⟨-, -, hg1, -⟩ := h
      subst hg1
      apply hnil
      simp [riscv_event_destroy_eq, hback, h0]

/-- The calls one `riscv_event_destroy` records, from any counter value of a 32-bit `int`: it
never requests the interrupt, and it frees it only when it takes the counter from 1 to 0. -/
theorem riscv_event_destroy_log (pmu : riscv_pmu) (g : pmc_global)
    (hg1 : -2 ^ 31 ≤ g.riscv_active_events) (hg2 : g.riscv_active_events < 2 ^ 31) :
    ∃ ops, (riscv_event_destroy pmu g).log = g.log ++ ops ∧
      (∀ irq r, pmc_op.request_irq irq r ∉ ops) ∧
      ((∃ irq, pmc_op.free_irq irq ∈ ops) →
        g.riscv_active_events = 1 ∧ (riscv_event_destroy pmu g).riscv_active_events = 0) := by
  have hzero := (atomic_counter_tests g.riscv_active_events hg1 hg2).2.1
  rw [riscv_event_destroy_eq]
  by_cases hz : atomic_dec_return g.riscv_active_events = 0
  · rw [if_pos hz]
    exact ⟨release_ops pmu, rfl, (pmc_ops_mem pmu 0).2, fun _ => ⟨hzero.1 hz, hz⟩⟩
  · rw [if_neg hz]
    refine ⟨[], rfl, fun irq r hm => absurd hm (List.not_mem_nil _), ?_⟩
    rintro ⟨irq, hm⟩
    exact absurd hm (List.not_mem_nil _)

/-- After every call of a sequential trace of init and destroy calls whose requests are all
of type HARDWARE or HW_CACHE (whatever `request_irq` answers), the active-event counter is the
number of initialised and not yet destroyed events, and the hardware is reserved exactly when
the counter is above 0. -/
theorem pmc_reach_reserved_inv (b : Build) (pmu : riscv_pmu) (s : pmc_state)
    (hs : pmc_reach b pmu adm_typed s) :
    (s.g.riscv_active_events = (s.live.length : Int) ∧ (s.live.length : Int) < 2 ^ 31) ∧
    (hw_reserved s.g.log = true ↔ 0 < s.g.riscv_active_events) := by
  have hdec : atomic_dec_return 1 = 0 := by decide
  induction hs with
  | start => exact ⟨⟨rfl, by decide⟩, by decide⟩
  | init_ok s e irq_ret g1 e1 _ hadm hlt hinit ih =>
    obtain ⟨⟨ih1, ihb⟩, ih2⟩ := ih
    have hexact := (atomic_counter_exact s.g.riscv_active_events).1
    rcases riscv_event_init_cases b pmu irq_ret s.g g1 e e1 0 (by omega) (by omega) hinit
      with h | h | h
    · exact absurd h.2.2.2.1 (by decide)
    · obtain ⟨h0, hi, hmap⟩ := h
      have hlive : s.live = [] := by
        rw [h0] at ih1
        exact List.length_eq_zero.1 (by exact_mod_cast ih1.symm)
      have hR : hw_reserved (s.g.log ++ reserve_ops pmu irq_ret) = true := by
        rw [(hw_reserved_append pmu irq_ret s.g.log).1]
        split_ifs with h
        · simp [hi h]
        · rfl
      rcases riscv_event_init_map_cases b pmu _ g1 e e1 0 hmap with h | h | h
      · rcases hadm with ht | ht
        · exact absurd ht h.1
        · exact absurd ht h.2.1
      · obtain ⟨-, hg1, -⟩ := h
        subst hg1
        simp only [hlive, List.length_singleton, Nat.cast_one, hR, true_iff]
        exact ⟨⟨trivial, by decide⟩, by decide⟩
      · exact absurd h.2.1 (by decide)
    · obtain ⟨h0, hmap⟩ := h
      have hR : hw_reserved s.g.log = true := ih2.2 (by omega)
      rcases riscv_event_init_map_cases b pmu _ g1 e e1 0 hmap with h | h | h
      · rcases hadm with ht | ht
        · exact absurd ht h.1
        · exact absurd ht h.2.1
      · obtain ⟨-, hg1, -⟩ := h
        subst hg1
        simp only [List.length_cons, Nat.cast_add, Nat.cast_one, hR, true_iff,
          hexact (by omega) (by omega)]
        exact ⟨⟨by omega, hlt⟩, by omega⟩
      · exact absurd h.2.1 (by decide)
  | init_fail s e irq_ret ret g1 e1 _ hadm hinit hret ih =>
    obtain ⟨⟨ih1, ihb⟩, ih2⟩ := ih
    have hg1r : -2 ^ 31 ≤ s.g.riscv_active_events := by omega
    have hg2r : s.g.riscv_active_events < 2 ^ 31 := by omega
    have hback := (atomic_counter_tests s.g.riscv_active_events hg1r hg2r).2.2
    rcases riscv_event_init_cases b pmu irq_ret s.g g1 e e1 ret hg1r hg2r hinit
      with h | h | h
    · obtain ⟨h0, hi, hr, -, -, hg1⟩ := h
      subst hg1
      have hlen : (s.live.length : Int) = 0 := by omega
      refine ⟨⟨by simp only; omega, ihb⟩, ?_⟩
      simp [(hw_reserved_append pmu irq_ret s.g.log).1, hi, hr]
    · obtain ⟨h0, hi, hmap⟩ := h
      have hlen : (s.live.length : Int) = 0 := by omega
      rcases riscv_event_init_map_cases b pmu _ g1 e e1 ret hmap with h | h | h
      · rcases hadm with ht | ht
        · exact absurd ht h.1
        · exact absurd ht h.2.1
      · exact absurd h.1 hret
      · obtain ⟨-, -, hg1, -⟩ := h
        subst hg1
        refine ⟨⟨by simp only [riscv_event_destroy_eq, hdec]; omega, ihb⟩, ?_⟩
        simp [riscv_event_destroy_eq, hdec, ← List.append_assoc,
          (hw_reserved_append pmu 0 (s.g.log ++ reserve_ops pmu irq_ret)).2]
    · obtain ⟨h0, hmap⟩ := h
      rcases riscv_event_init_map_cases b pmu _ g1 e e1 ret hmap with h | h | h
      · rcases hadm with ht | ht
        · exact absurd ht h.1
        · exact absurd ht h.2.1
      · exact absurd h.1 hret
      · obtain ⟨-, -, hg1, -⟩ := h
        subst hg1
        simp only [riscv_event_destroy_eq, hback, h0, if_false, List.append_nil]
        exact ⟨⟨ih1, ihb⟩, ih2⟩
  | destroy g l1 l2 e k _ ih =>
    obtain ⟨⟨ih1, ihb⟩, ih2⟩ := ih
    simp only [List.length_append, List.length_cons, Nat.cast_add, Nat.cast_one] at ih1 ihb
    dsimp only at ih2
    have hexact : atomic_dec_return g.riscv_active_events = g.riscv_active_events - 1 :=
      (atomic_counter_exact g.riscv_active_events).2 (by omega) (by omega)
    simp only [riscv_event_destroy_eq, hexact, List.length_append, Nat.cast_add]
    refine ⟨⟨by omega, by omega⟩, ?_⟩
    by_cases hz : g.riscv_active_events - 1 = 0
    · rw [if_pos hz, (hw_reserved_append pmu 0 g.log).2, hz]
      simp
    · rw [if_neg hz, List.append_nil]
      have hR : hw_reserved g.log = true := ih2.2 (by omega)
      simp only [hR, true_iff]
      omega

/-- What `riscv_event_init` does with a request of type RAW on the base descriptor, from any
state: it rejects it with `-EOPNOTSUPP` and leaves the counter incremented (and the hardware
reserved when the increment gave 1). -/
theorem riscv_event_init_raw_eq (g : pmc_global) :
    riscv_event_init .base (riscv_base_pmu .base) 0 g (typed_request 1 PERF_TYPE_RAW 0)
      = some (-EOPNOTSUPP,
          { riscv_active_events := atomic_inc_return g.riscv_active_events
            log := if atomic_inc_return g.riscv_active_events = 1 then
              g.log ++ [pmc_op.reserve] else g.log },
          typed_request 1 PERF_TYPE_RAW 0) := by
  have hno : ¬ ((riscv_base_pmu .base).irq ≥ 0 ∧ (riscv_base_pmu .base).handle_irq = true) := by
    decide
  have hmap : ∀ g2 : pmc_global,
      riscv_event_init_map .base (riscv_base_pmu .base) g2 (typed_request 1 PERF_TYPE_RAW 0)
        = some (-EOPNOTSUPP, g2, typed_request 1 PERF_TYPE_RAW 0) := fun _ => rfl
  unfold riscv_event_init
  simp only [reserve_pmc_hardware_eq, reserve_ops, hno, if_false, ne_eq, not_true_eq_false,
    hmap]
  split_ifs <;> rfl

/-- After `n + 1` rejected requests of type RAW in a row from start-up on the base descriptor,
`n + 1` below `2 ^ 32`: no event is initialised, the hardware has been reserved once and not
released, and the counter holds `n + 1` wrapped to 32 bits. -/
theorem pmc_reach_raw_inits (n : Nat) (hn : n + 1 < 2 ^ 32) :
    ∃ s, pmc_reach .base (riscv_base_pmu .base) adm_all s ∧ s.idle_inits = n + 1 ∧
      s.live = [] ∧ s.g.riscv_active_events = int_wrap ((n : Int) + 1) ∧
      s.g.log = [pmc_op.reserve] := by
  induction n with
  | zero =>
    exact ⟨_, pmc_reach.init_fail _ (typed_request 1 PERF_TYPE_RAW 0) 0 _ _ _ pmc_reach.start
      trivial (riscv_event_init_raw_eq pmc_global_init) (by decide), rfl, rfl, rfl, rfl⟩
  | succ n ih =>
    obtain ⟨s, hs, hidle, hlive, hcnt, hlog⟩ := ih (by omega)
    have hnext : atomic_inc_return s.g.riscv_active_events = int_wrap (((n + 1 : Nat) : Int) + 1)
        ∧ atomic_inc_return s.g.riscv_active_events ≠ 1 := by
      simp only [hcnt, atomic_inc_return, int_wrap]
      push_cast
      omega
    refine ⟨_, pmc_reach.init_fail s (typed_request 1 PERF_TYPE_RAW 0) 0 _ _ _ hs
      trivial (riscv_event_init_raw_eq s.g) (by decide), ?_, hlive, hnext.1, ?_⟩
    · simp only [hlive, List.isEmpty_nil, if_true, hidle]
    · simp only [if_neg hnext.2, hlog]

/-- C18, the code at the failing input: base descriptor, `2 ^ 31` requests of type RAW in a
row from start-up (a sequential trace of init calls; no destroy is due, no request being
accepted). The first call reserves the hardware and every call leaves the 32-bit counter
incremented, so after the last call the counter holds `-2 ^ 31` and the hardware has been
reserved and not released: the hardware is reserved while the active-event counter is not
greater than 0. -/
theorem pmc_reach_leak_wraps :
    ∃ s, pmc_reach .base (riscv_base_pmu .base) adm_all s ∧ s.idle_inits = 2 ^ 31 ∧
      s.live = [] ∧ s.g = { riscv_active_events := -2 ^ 31, log := [pmc_op.reserve] } ∧
      hw_reserved s.g.log = true ∧ ¬ (0 < s.g.riscv_active_events) := by
  obtain ⟨s, hs, hidle, hlive, hcnt, hlog⟩ := pmc_reach_raw_inits (2 ^ 31 - 1) (by decide)
  have hval : int_wrap (((2 ^ 31 - 1 : Nat) : Int) + 1) = -2 ^ 31 := by decide
  rw [hval] at hcnt
  have hg : s.g = { riscv_active_events := -2 ^ 31, log := [pmc_op.reserve] } := by
    cases hsg : s.g with
    | mk c l =>
      rw [hsg] at hcnt hlog
      simp only at hcnt hlog
      rw [hcnt, hlog]
  refine ⟨s, hs, hidle, hlive, hg, ?_, ?_⟩
  · rw [hlog]
    rfl
  · rw [hcnt]
    decide

/-- For a descriptor with no interrupt (`irq < 0`) `reserve_pmc_hardware` succeeds and
`release_pmc_hardware` returns, and neither issues a request or a free of the interrupt. -/
theorem pmc_hardware_no_irq (pmu : riscv_pmu) (irq_ret : Int) (g : pmc_global)
    (hirq : pmu.irq < 0) :
    reserve_pmc_hardware pmu irq_ret g
      = (0, { riscv_active_events := g.riscv_active_events
              log := g.log ++ [pmc_op.reserve] }) ∧
    release_pmc_hardware pmu g
      = { riscv_active_events := g.riscv_active_events, log := g.log ++ [pmc_op.release] } := by
  have h1 : ¬ (pmu.irq ≥ 0 ∧ pmu.handle_irq = true) := by omega
  have h2 : ¬ pmu.irq ≥ 0 := by omega
  rw [reserve_pmc_hardware_eq, release_pmc_hardware_eq]
  unfold reserve_ops release_ops
  simp [h1, h2]

/-- C19, the code at the failing input: for the descriptor with an interrupt line (5) and no
handler, `reserve_pmc_hardware` succeeds without calling `request_irq`, and the matching
`release_pmc_hardware` calls `free_irq` all the same; so the init and the destroy of one
cycle-counter event free an interrupt that was never requested. -/
theorem release_frees_unrequested_irq :
    pmu_irq_no_handler.irq = 5 ∧ pmu_irq_no_handler.handle_irq = false ∧
    reserve_pmc_hardware pmu_irq_no_handler 0 pmc_global_init
      = (0, { riscv_active_events := 0, log := [pmc_op.reserve] }) ∧
    release_pmc_hardware pmu_irq_no_handler { riscv_active_events := 0, log := [pmc_op.reserve] }
      = { riscv_active_events := 0
          log := [pmc_op.reserve, pmc_op.release, pmc_op.free_irq 5] } ∧
    (riscv_event_init .base pmu_irq_no_handler 0 pmc_global_init
        (hw_request 1 PERF_COUNT_HW_CPU_CYCLES)).map
      (fun r => (r.1, r.2.1, riscv_event_destroy pmu_irq_no_handler r.2.1))
      = some (0, { riscv_active_events := 1, log := [pmc_op.reserve] },
          { riscv_active_events := 0
            log := [pmc_op.reserve, pmc_op.release, pmc_op.free_irq 5] }) := by
  decide

/-- C20: if the first init process-wide (active-event counter 0 before the call) finds that
interrupt registration fails (the descriptor has an interrupt and a handler, and `request_irq`
returns an error), `riscv_event_init` returns `-EBUSY` whatever the request is, the counter is
back at 0 after the call, the event handle is returned as it was (resolved code and assigned
index not written), and the call has recorded the reservation attempt and the request only: no
release of the hardware and no free of the interrupt. -/
theorem riscv_event_init_ebusy (b : Build) (pmu : riscv_pmu) (irq_ret : Int) (g : pmc_global)
    (e : perf_event) (h0 : g.riscv_active_events = 0) (hirq : pmu.irq ≥ 0)
    (hhandler : pmu.handle_irq = true) (hfail : irq_ret ≠ 0) :
    riscv_event_init b pmu irq_ret g e
      = some (-EBUSY,
          { riscv_active_events := 0
            log := g.log ++ [pmc_op.reserve, pmc_op.request_irq pmu.irq irq_ret] }, e) ∧
    pmc_op.release ∉ [pmc_op.reserve, pmc_op.request_irq pmu.irq irq_ret] ∧
    ∀ irq, pmc_op.free_irq irq ∉ [pmc_op.reserve, pmc_op.request_irq pmu.irq irq_ret] := by
  refine ⟨?_, by simp, fun irq => by simp⟩
  have h1 : atomic_inc_return g.riscv_active_events = 1 := by
    rw [h0]
    decide
  have hdec : atomic_dec_return 1 = 0 := by decide
  have hi : pmu.irq ≥ 0 ∧ pmu.handle_irq = true := ⟨hirq, hhandler⟩
  unfold riscv_event_init
  simp only [reserve_pmc_hardware_eq, h1, if_true, hi, and_self, ne_eq, hfail,
    not_false_eq_true, reserve_ops, hdec]

/-- Witness of C20: the descriptor with an interrupt line, `request_irq` answering `-EBUSY`, a
request of type RAW as the first init. -/
theorem riscv_event_init_ebusy_witness :
    riscv_event_init .base pmu_irq (-EBUSY) pmc_global_init (typed_request 1 PERF_TYPE_RAW 0)
      = some (-EBUSY,
          { riscv_active_events := 0
            log := [pmc_op.reserve, pmc_op.request_irq 5 (-EBUSY)] },
          typed_request 1 PERF_TYPE_RAW 0) :=
  (riscv_event_init_ebusy .base pmu_irq (-EBUSY) pmc_global_init
    (typed_request 1 PERF_TYPE_RAW 0) rfl (by decide) rfl (by decide)).1

/-- For the index `-1` of an unassigned handle, `read_counter` of either build returns the
error code `-EINVAL` converted to `u64`, that is `2 ^ 64 - 22`. -/
theorem read_counter_unassigned (b : Build) (hw : Hw) :
    read_counter b hw (-1) = int_to_u64 (-EINVAL) ∧ int_to_u64 (-EINVAL) = 2 ^ 64 - 22 := by
  refine ⟨?_, by decide⟩
  cases b <;> rfl

/-- C21, the code at the failing input: base descriptor, a cycle-counter handle as
`riscv_event_init` leaves it (assigned index `-1`, baseline 0, logical count 0), never added.
`read_counter` returns `2 ^ 64 - 22` (`-EINVAL` as a `u64`) for the index `-1`, and
`riscv_pmu_read` takes it for a register value: the logical count goes from 0 to
`2 ^ 63 - 22` and the baseline becomes `2 ^ 64 - 22`. The same happens for the handle whose
add was rejected on the full table. -/
theorem riscv_pmu_read_unassigned :
    ∃ g1 e1 e2 e3,
      riscv_event_init .base (riscv_base_pmu .base) 0 pmc_global_init
        (hw_request 1 PERF_COUNT_HW_CPU_CYCLES) = some (0, g1, e1) ∧
      e1.hw.idx = -1 ∧ e1.hw.prev_count = 0 ∧ e1.count = 0 ∧
      read_counter .base (hw_cycle 1000) e1.hw.idx = 2 ^ 64 - 22 ∧
      riscv_pmu_read .base (riscv_base_pmu .base) (hw_cycle 1000) 1 e1 = some e2 ∧
      e2.count = 2 ^ 63 - 22 ∧ e2.hw.prev_count = 2 ^ 64 - 22 ∧
      riscv_pmu_add .base (riscv_base_pmu .base) (hw_cycle 1000) cpuc_full e1 PERF_EF_START
        = some (-ENOSPC, cpuc_full, e1) ∧
      riscv_pmu_read .base (riscv_base_pmu .base) (hw_cycle 1000) 1 e1 = some e3 ∧
      e3.count ≠ e1.count :=
  ⟨_, _, _, _, rfl, rfl, rfl, rfl, rfl, rfl, rfl, rfl, rfl, rfl, by decide⟩

/-- The handle `riscv_pmu_stop` returns (valid counter width, fuel for the retry loop): with
the flush flag and `UPTODATE` clear, the handle after one update with both flags set;
otherwise the handle with `STOPPED` set. -/
theorem riscv_pmu_stop_eq (b : Build) (pmu : riscv_pmu) (hw : Hw) (fuel : Nat)
    (event : perf_event) (flags w : Nat) (hwidth : pmu.counter_width = (w : Int))
    (hw63 : w ≤ 63) :
    riscv_pmu_stop b pmu hw (fuel + 1) event flags
      = some (if flags &&& PERF_EF_UPDATE ≠ 0 ∧ event.hw.state &&& PERF_HES_UPTODATE = 0 then
          { event with
            hw := { event.hw with
              state := event.hw.state ||| PERF_HES_STOPPED ||| PERF_HES_UPTODATE
              prev_count := read_counter b hw event.hw.idx }
            count := (event.count
              + u64_sub (read_counter b hw event.hw.idx) event.hw.prev_count % 2 ^ w) % U64 }
        else
          { event with hw := { event.hw with state := event.hw.state ||| PERF_HES_STOPPED } })
    := by
  unfold riscv_pmu_stop
  simp only [stopped_keeps_uptodate, ne_eq, Decidable.not_not]
  by_cases hc : ¬ (flags &&& PERF_EF_UPDATE = 0) ∧ event.hw.state &&& PERF_HES_UPTODATE = 0
  · rw [if_pos hc, if_pos hc, riscv_pmu_read_eq b pmu hw fuel _ w hwidth hw63]
  · rw [if_neg hc, if_neg hc]

/-- The state flags the engine writes: `riscv_pmu_add` leaves `UPTODATE | STOPPED` or, when it
starts the event, 0; `riscv_pmu_start` leaves 0 or the state it found; from one of the states
0, `STOPPED`, `UPTODATE | STOPPED`, `riscv_pmu_stop` leads to one of them. So an added event
whose `STOPPED` flag is clear (a running event) has state 0. -/
theorem hes_states (b : Build) (pmu : riscv_pmu) (hw : Hw) (fuel : Nat) (cpuc : cpu_hw_events)
    (event : perf_event) (flags : Nat) :
    (∀ c1 e1, riscv_pmu_add b pmu hw cpuc event flags = some (0, c1, e1) →
      e1.hw.state = 0 ∨ e1.hw.state = PERF_HES_UPTODATE ||| PERF_HES_STOPPED) ∧
    ((riscv_pmu_start b hw event flags).hw.state = 0 ∨
      (riscv_pmu_start b hw event flags).hw.state = event.hw.state) ∧
    (∀ e1, riscv_pmu_stop b pmu hw fuel event flags = some e1 →
      (event.hw.state = 0 ∨ event.hw.state = PERF_HES_STOPPED ∨
        event.hw.state = PERF_HES_UPTODATE ||| PERF_HES_STOPPED) →
      (e1.hw.state = PERF_HES_STOPPED ∨
        e1.hw.state = PERF_HES_UPTODATE ||| PERF_HES_STOPPED)) := by
  refine ⟨?_, ?_, ?_⟩
  · intro c1 e1 hadd
    have h3 : ¬ ¬ ((PERF_HES_UPTODATE ||| PERF_HES_STOPPED) &&& PERF_HES_STOPPED ≠ 0) := by
      decide
    unfold riscv_pmu_add at hadd
    by_cases h1 : cpuc.n_events = pmu.num_counters
    · rw [if_pos h1] at hadd
      simp only [Option.some.injEq, Prod.mk.injEq] at hadd
      exact absurd hadd.1 (by decide)
    · rw [if_neg h1] at hadd
      simp only at hadd
      cases hs : events_store b cpuc (u64_to_int event.hw.config) (some event.id) with
      | none =>
        rw [hs] at hadd
        exact Option.noConfusion hadd
      | some c2 =>
        rw [hs] at hadd
        simp only at hadd
        by_cases hst : flags &&& PERF_EF_START ≠ 0
        · rw [if_pos hst] at hadd
          simp only [riscv_pmu_start, h3, if_false, Option.some.injEq, Prod.mk.injEq] at hadd
          left
          rw [← hadd.2.2]
        · rw [if_neg hst] at hadd
          simp only [Option.some.injEq, Prod.mk.injEq] at hadd
          right
          rw [← hadd.2.2]
  · unfold riscv_pmu_start
    split_ifs <;> first | exact Or.inr rfl | exact Or.inl rfl
  · intro e1 hstop hst
    unfold riscv_pmu_stop at hstop
    simp only at hstop
    split_ifs at hstop with hc
    · cases hr : riscv_pmu_read b pmu hw fuel
          { event with hw := { event.hw with state := event.hw.state ||| PERF_HES_STOPPED } } with
      | none =>
        rw [hr] at hstop
        exact Option.noConfusion hstop
      | some e2 =>
        rw [hr] at hstop
        simp only [Option.some.injEq] at hstop
        have he2 : e2.hw.state = event.hw.state ||| PERF_HES_STOPPED := by
          unfold riscv_pmu_read at hr
          simp only at hr
          split at hr
          · exact Option.noConfusion hr
          · split_ifs at hr
            simp only [Option.some.injEq] at hr
            rw [← hr]
        right
        rw [← hstop]
        simp only [he2]
        rcases hst with h | h | h <;> rw [h] <;> decide
    · simp only [Option.some.injEq] at hstop
      rw [← hstop]
      simp only
      rcases hst with h | h | h <;> rw [h] <;> decide

/-- C22: `riscv_pmu_del` (valid counter width, fuel for the retry loop) applied to an added
event, whose assigned index `c` is a slot of the array and whose state is one of those the
engine writes, completes, empties `slots[c]`, leaves the other slots alone and takes one off
`n_events`. If the event is running (`STOPPED` clear, so state 0), the last delta is drained
once: the logical count is its previous value plus the masked delta between the baseline and
the register value at del time (modulo `2 ^ 64`), the baseline is that register value, and the
state is `STOPPED` and `UPTODATE`. If the event is already `STOPPED` and `UPTODATE`, the
logical count, the baseline and the state are unchanged. -/
theorem riscv_pmu_del_drains (b : Build) (pmu : riscv_pmu) (hw : Hw) (fuel : Nat)
    (cpuc : cpu_hw_events) (event : perf_event) (flags w c : Nat)
    (hwidth : pmu.counter_width = (w : Int)) (hw63 : w ≤ 63)
    (hidx : event.hw.idx = (c : Int)) (hc : (c : Int) < RISCV_MAX_COUNTERS b)
    (hstate : event.hw.state = 0 ∨ event.hw.state = PERF_HES_STOPPED ∨
      event.hw.state = PERF_HES_UPTODATE ||| PERF_HES_STOPPED) :
    ∃ cpuc1 event1,
      riscv_pmu_del b pmu hw (fuel + 1) cpuc event flags = some (cpuc1, event1) ∧
      cpuc1.events c = none ∧ (∀ i, i ≠ c → cpuc1.events i = cpuc.events i) ∧
      cpuc1.n_events = cpuc.n_events - 1 ∧
      (event.hw.state &&& PERF_HES_STOPPED = 0 →
        event1.count = (event.count
          + ((((read_counter b hw event.hw.idx : Nat) : Int) - (event.hw.prev_count : Int))
              % 2 ^ 64 % 2 ^ w).toNat) % 2 ^ 64 ∧
        event1.hw.prev_count = read_counter b hw event.hw.idx ∧
        event1.hw.state = PERF_HES_STOPPED ||| PERF_HES_UPTODATE ∧
        event1.hw.state &&& PERF_HES_STOPPED ≠ 0 ∧
        event1.hw.state &&& PERF_HES_UPTODATE ≠ 0) ∧
      (event.hw.state = PERF_HES_UPTODATE ||| PERF_HES_STOPPED →
        event1.count = event.count ∧ event1.hw.prev_count = event.hw.prev_count ∧
        event1.hw.state = event.hw.state) := by
  have hb : (0 : Int) ≤ (c : Int) ∧ (c : Int) < RISCV_MAX_COUNTERS b := ⟨by omega, hc⟩
  have hstop := riscv_pmu_stop_eq b pmu hw fuel event PERF_EF_UPDATE w hwidth hw63
  have hupd : PERF_EF_UPDATE &&& PERF_EF_UPDATE ≠ 0 := by decide
  obtain ⟨res, hres⟩ : ∃ res : perf_event, res =
      (if PERF_EF_UPDATE &&& PERF_EF_UPDATE ≠ 0 ∧ event.hw.state &&& PERF_HES_UPTODATE = 0 then
        { event with
          hw := { event.hw with
            state := event.hw.state ||| PERF_HES_STOPPED ||| PERF_HES_UPTODATE
            prev_count := read_counter b hw event.hw.idx }
          count := (event.count
            + u64_sub (read_counter b hw event.hw.idx) event.hw.prev_count % 2 ^ w) % U64 }
      else
        { event with hw := { event.hw with state := event.hw.state ||| PERF_HES_STOPPED } }) :=
    ⟨_, rfl⟩
  rw [← hres] at hstop
  have hdel : riscv_pmu_del b pmu hw (fuel + 1) cpuc event flags
      = some ({ n_events := cpuc.n_events - 1
                events := fun i => if i = c then none else cpuc.events i }, res) := by
    unfold riscv_pmu_del
    simp only [hidx, events_store, hb, and_self, if_true, Int.toNat_ofNat, hstop]
  refine ⟨_, res, hdel, ?_, ?_, rfl, ?_, ?_⟩
  · simp
  · intro i hi
    simp [hi]
  · intro hrun
    have h0 : event.hw.state = 0 := by
      rcases hstate with h | h | h
      · exact h
      · rw [h] at hrun
        exact absurd hrun (by decide)
      · rw [h] at hrun
        exact absurd hrun (by decide)
    have hcond : PERF_EF_UPDATE &&& PERF_EF_UPDATE ≠ 0 ∧
        event.hw.state &&& PERF_HES_UPTODATE = 0 := ⟨hupd, by rw [h0]; rfl⟩
    rw [if_pos hcond] at hres
    rw [hres]
    refine ⟨?_, rfl, ?_, ?_, ?_⟩
    · simp only
      rw [← u64_delta_eq, Int.toNat_ofNat]
      rfl
    · simp only [h0]
      rfl
    · simp only [h0]
      decide
    · simp only [h0]
      decide
  · intro h3
    have hcond : ¬ (PERF_EF_UPDATE &&& PERF_EF_UPDATE ≠ 0 ∧
        event.hw.state &&& PERF_HES_UPTODATE = 0) := by
      rw [h3]
      decide
    rw [if_neg hcond] at hres
    rw [hres]
    refine ⟨rfl, rfl, ?_⟩
    simp only [h3]
    rfl

/-- Witness of C22: the del of the running cycle-counter event with baseline 250 and count 5,
at width 8, when the register holds 10: the count becomes 21. -/
theorem riscv_pmu_del_drains_witness :
    ∃ cpuc1 event1,
      riscv_pmu_del .base pmu_width8 (hw_cycle 10) (0 + 1) cpuc_full event_c1 0
        = some (cpuc1, event1) ∧
      cpuc1.events 0 = none ∧ cpuc1.n_events = cpuc_full.n_events - 1 ∧
      event1.count = 21 ∧ event1.hw.prev_count = 10 ∧
      event1.hw.state = PERF_HES_STOPPED ||| PERF_HES_UPTODATE := by
  obtain ⟨c1, e1, h1, h2, -, h3, h4, -⟩ := riscv_pmu_del_drains .base pmu_width8 (hw_cycle 10)
    0 cpuc_full event_c1 0 8 0 rfl (by decide) rfl (by decide) (Or.inl rfl)
  obtain ⟨h5, h6, h7, -, -⟩ := h4 (by decide)
  exact ⟨c1, e1, h1, h2, h3, h5, h6, h7⟩

/-- On the Ariane descriptor, for the six cache levels that the initialiser of
`riscv_cache_event_map` lists (L1D to BPU) and every operation and result in range,
`riscv_map_cache_event` returns `-EINVAL` or a counter code from 2 to 15. -/
theorem riscv_map_cache_event_listed_levels :
    ∀ level < 6, ∀ op < PERF_COUNT_HW_CACHE_OP_MAX, ∀ result < PERF_COUNT_HW_CACHE_RESULT_MAX,
      ∃ code, riscv_map_cache_event .ariane (riscv_base_pmu .ariane)
          (level + op * 2 ^ 8 + result * 2 ^ 16) = some code ∧
        (code = -EINVAL ∨ (2 ≤ code ∧ code ≤ 15)) := by
  intro level hl op ho result hr
  have ho3 : op < 3 := ho
  have hr2 : result < 2 := hr
  interval_cases level <;> interval_cases op <;> interval_cases result <;>
    exact ⟨_, rfl, by decide⟩

/-- C23, the code at the failing input: on the Ariane build, config 6 decodes to the cache
level NODE (6, below `PERF_COUNT_HW_CACHE_MAX`), operation READ and result ACCESS, all in
range. The initialiser of `riscv_cache_event_map` does not list that level, its entries are 0,
and `riscv_map_cache_event` returns 0, the code of the cycle counter, for this and for every
other operation and result of the level; `riscv_event_init` accepts the request with resolved
code 0. -/
theorem riscv_map_cache_event_node_cycle :
    (6 &&& 0xFF = 6 ∧ 6 < PERF_COUNT_HW_CACHE_MAX ∧
      (6 >>> 8) &&& 0xFF < PERF_COUNT_HW_CACHE_OP_MAX ∧
      (6 >>> 16) &&& 0xFF < PERF_COUNT_HW_CACHE_RESULT_MAX) ∧
    riscv_map_cache_event .ariane (riscv_base_pmu .ariane) 6 = some RISCV_PMU_CYCLE ∧
    (∀ op < PERF_COUNT_HW_CACHE_OP_MAX, ∀ result < PERF_COUNT_HW_CACHE_RESULT_MAX,
      riscv_map_cache_event .ariane (riscv_base_pmu .ariane) (6 + op * 2 ^ 8 + result * 2 ^ 16)
        = some RISCV_PMU_CYCLE) ∧
    (riscv_event_init .ariane (riscv_base_pmu .ariane) 0 pmc_global_init
        (typed_request 1 PERF_TYPE_HW_CACHE 6)).map
      (fun r => (r.1, r.2.2.hw.config, r.2.2.hw.idx))
      = some (0, RISCV_PMU_CYCLE.toNat, -1) := by
  refine ⟨by decide, by decide, ?_, by decide⟩
  intro op ho result hr
  have ho3 : op < 3 := ho
  have hr2 : result < 2 := hr
  interval_cases op <;> interval_cases result <;> rfl
end RiscvPmu
